import Mathlib

/-!
Verification of the floating-window registry and the notebook parse /
serialize layer of the three-jupyter repository.

The TypeScript sources are shallowly embedded:

* `FloatingWindowManager` (src/floating-window-manager.ts) becomes a pure
  state-passing transition system on `FWMState`.
* `parseNotebook` / `convertNotebookOutputs` (src/utils/notebook-parser.ts)
  become total functions over a JSON value model `JVal`; a JavaScript
  `TypeError` raised by a property access on `null` is modelled with
  `Except Unit`, and the surrounding `try/catch` turns it back into the
  logged-and-empty result, exactly as in the source.
* the cell/output serialization fragment of `saveNotebook`
  (components/widget.tsx) becomes `saveNotebookCells` / `saveNotebookDoc`.

JavaScript string primitives used by the code (`String.prototype.split`
with a one-character separator, `Array.prototype.join`, `trim`, template
literal coercion) are embedded as executable functions on `List Char`.
-/

namespace ThreeJupyter

/-! ## JavaScript string primitives -/

/-- One splitting step: `splitCh c l = (chunk before the first `c`, later
chunks)`.  Together with `splitChars` this embeds the JavaScript
`String.prototype.split` with a single-character separator and no limit. -/
def splitCh (c : Char) : List Char → List Char × List (List Char)
  | [] => ([], [])
  | x :: xs =>
    let r := splitCh c xs
    if x = c then ([], r.1 :: r.2) else (x :: r.1, r.2)

/-- All chunks of `l` delimited by `c` (never empty, like JS `split`). -/
def splitChars (c : Char) (l : List Char) : List (List Char) :=
  (splitCh c l).1 :: (splitCh c l).2

/-- Concatenation of chunks with no separator: JS `Array.join('')` on a
list of strings, at the character level. -/
def joinChars : List (List Char) → List Char
  | [] => []
  | x :: xs => x ++ joinChars xs

/-- Concatenation of chunks with separator `sep` between consecutive
chunks: JS `Array.join(sep)` at the character level. -/
def joinSepChars (sep : List Char) : List (List Char) → List Char
  | [] => []
  | [x] => x
  | x :: xs => x ++ sep ++ joinSepChars sep xs

/-- Whitespace as trimmed by JS `String.prototype.trim`: the ECMAScript
WhiteSpace and LineTerminator code points — tab, LF, VT, FF, CR, space,
NBSP, Ogham space mark, the en-quad … hair-space range, LS, PS, narrow
NBSP, medium mathematical space, ideographic space, and ZWNBSP. -/
def jsWs (c : Char) : Bool :=
  c = ' ' ∨ c = '\t' ∨ c = '\n' ∨ c = '\r' ∨ c = '\x0b' ∨ c = '\x0c' ∨
  c = '\u00a0' ∨ c = '\u1680' ∨ (0x2000 ≤ c.toNat ∧ c.toNat ≤ 0x200a) ∨
  c = '\u2028' ∨ c = '\u2029' ∨ c = '\u202f' ∨ c = '\u205f' ∨
  c = '\u3000' ∨ c = '\ufeff'

/-- JS `String.prototype.trim` at the character level. -/
def trimChars (l : List Char) : List Char :=
  ((l.dropWhile jsWs).reverse.dropWhile jsWs).reverse

/-- JS `String.prototype.split(c)` (single-character separator). -/
def jsSplit (c : Char) (s : String) : List String :=
  (splitChars c s.data).map (fun l => ⟨l⟩)

/-- JS `Array.prototype.join('')` on an array of strings. -/
def jsJoinEmpty (xs : List String) : String :=
  ⟨joinChars (xs.map String.data)⟩

/-- JS `Array.prototype.join(sep)` on an array of strings. -/
def jsJoin (sep : String) (xs : List String) : String :=
  ⟨joinSepChars sep.data (xs.map String.data)⟩

/-- JS `String.prototype.trim`. -/
def jsTrim (s : String) : String :=
  ⟨trimChars s.data⟩

/-! ### Decimal rendering of JS numbers (for the `window-${n}` ids) -/

/-- Decimal digit character. -/
def digitCh (d : Nat) : Char := Char.ofNat (48 + d)

/-- Fuel-based most-significant-first decimal digits of `n`; with fuel
`n + 1` this is the digit string produced by a JS template literal for a
nonnegative integer. -/
def natCharsCore : Nat → Nat → List Char
  | 0, _ => []
  | fuel + 1, n =>
    if n < 10 then [digitCh n]
    else natCharsCore fuel (n / 10) ++ [digitCh (n % 10)]

/-- Decimal rendering of a natural number, as a JS template literal
renders a nonnegative integer. -/
def natToStr (n : Nat) : String := ⟨natCharsCore (n + 1) n⟩

/-- Numeric value of a digit character. -/
def digitVal (c : Char) : Nat := c.toNat - 48

/-- Digits-to-number fold, the inverse of `natCharsCore`. -/
def unDigits (l : List Char) : Nat :=
  l.foldl (fun a c => 10 * a + digitVal c) 0

/-- The id allocator of the registry: `` `window-${nextId}` ``. -/
def mkId (n : Nat) : String := "window-" ++ natToStr n

/-! ## JSON value model

The notebook code receives untyped (`any`) JSON-shaped data.  `JVal` is
the standard JSON value model; JavaScript `undefined` is represented as
an absent field (`Option JVal = none`).  Numbers are modelled as integers
(the code performs no arithmetic on JSON numbers). -/

inductive JVal where
  | null : JVal
  | bool : Bool → JVal
  | num : Int → JVal
  | str : String → JVal
  | arr : List JVal → JVal
  | obj : List (String × JVal) → JVal
deriving Inhabited

/-- First-match association-list lookup, the embedding of a JS object
property read (JSON-parsed objects cannot carry duplicate keys). -/
def alookup {α : Type} : List (String × α) → String → Option α
  | [], _ => none
  | (k, v) :: rest, key => if k = key then some v else alookup rest key

/-- JS truthiness of a JSON value (`NaN` cannot arise from this model). -/
def JVal.truthy : JVal → Bool
  | .null => false
  | .bool b => b
  | .num n => n ≠ 0
  | .str s => s ≠ ""
  | .arr _ => true
  | .obj _ => true

/-- Property read `v[k]` for non-`null` receivers: an object yields the
field (or `undefined` = `none`), any other non-`null` value yields
`undefined`. -/
def JVal.getF : JVal → String → Option JVal
  | .obj fs, k => alookup fs k
  | _, _ => none

/-- Property read `v[k]` as executed by JS: reading a property of `null`
throws a `TypeError` (modelled by `Except.error ()`). -/
def JVal.getFE : JVal → String → Except Unit (Option JVal)
  | .null, _ => .error ()
  | .obj fs, k => .ok (alookup fs k)
  | _, _ => .ok none

/-- The field value if it is present and truthy, as tested by
`if (v[k])` / `v[k] || dflt`. -/
def JVal.truthyF (v : JVal) (k : String) : Option JVal :=
  match v.getF k with
  | some w => if w.truthy then some w else none
  | none => none

/-- String list intercalation (used for JS joins below). -/
def intercalateStr (sep : String) : List String → String
  | [] => ""
  | [x] => x
  | x :: xs => x ++ sep ++ intercalateStr sep xs

mutual

/-- JS string coercion of an array element during `Array.prototype.join`
(`null` becomes empty, nested arrays join with `","`). -/
def jsToStringElem : JVal → String
  | .null => ""
  | .bool true => "true"
  | .bool false => "false"
  | .num n => toString n
  | .str s => s
  | .obj _ => "[object Object]"
  | .arr xs => jsToStringArr xs

/-- `Array.prototype.toString`: elements joined with `","`. -/
def jsToStringArr : List JVal → String
  | [] => ""
  | [x] => jsToStringElem x
  | x :: xs => jsToStringElem x ++ "," ++ jsToStringArr xs

end

/-- JS string coercion in a template literal / `String(x)`: same as the
join-element coercion except that `null` renders as `"null"`. -/
def jsToString : JVal → String
  | .null => "null"
  | v => jsToStringElem v

/-- `array.join('')` with JS element coercion. -/
def jsJoinEmptyV (xs : List JVal) : String :=
  jsJoinEmpty (xs.map jsToStringElem)

/-- `array.join(sep)` with JS element coercion. -/
def jsJoinV (sep : String) (xs : List JVal) : String :=
  jsJoin sep (xs.map jsToStringElem)

/-! ### `JSON.stringify(v, null, 2)` -/

/-- JSON string-literal escaping (the escapes relevant here). -/
def jsonEscape (s : String) : String :=
  ⟨s.data.foldr (fun c acc =>
    (if c = '"' then ['\\', '"']
     else if c = '\\' then ['\\', '\\']
     else if c = '\n' then ['\\', 'n']
     else if c = '\r' then ['\\', 'r']
     else if c = '\t' then ['\\', 't']
     else [c]) ++ acc) []⟩

/-- `n` spaces. -/
def spaces (n : Nat) : String := ⟨List.replicate n ' '⟩

mutual

/-- Pretty `JSON.stringify(v, null, 2)` at nesting depth `d`. -/
def jsonStringify2At : Nat → JVal → String
  | _, .null => "null"
  | _, .bool true => "true"
  | _, .bool false => "false"
  | _, .num n => toString n
  | _, .str s => "\"" ++ jsonEscape s ++ "\""
  | _, .arr [] => "[]"
  | d, .arr (x :: xs) =>
    "[\n" ++ spaces (2 * (d + 1)) ++
      jsonStringify2Arr (d + 1) (x :: xs) ++
      "\n" ++ spaces (2 * d) ++ "]"
  | _, .obj [] => "\x7b\x7d"
  | d, .obj (f :: fs) =>
    "\x7b\n" ++ spaces (2 * (d + 1)) ++
      jsonStringify2Fields (d + 1) (f :: fs) ++
      "\n" ++ spaces (2 * d) ++ "\x7d"

/-- Array elements, separated by `",\n" ++ indent`. -/
def jsonStringify2Arr : Nat → List JVal → String
  | _, [] => ""
  | d, [x] => jsonStringify2At d x
  | d, x :: xs =>
    jsonStringify2At d x ++ ",\n" ++ spaces (2 * d) ++ jsonStringify2Arr d xs

/-- Object fields, separated by `",\n" ++ indent`. -/
def jsonStringify2Fields : Nat → List (String × JVal) → String
  | _, [] => ""
  | d, [(k, v)] => "\"" ++ jsonEscape k ++ "\": " ++ jsonStringify2At d v
  | d, (k, v) :: fs =>
    "\"" ++ jsonEscape k ++ "\": " ++ jsonStringify2At d v ++ ",\n" ++
      spaces (2 * d) ++ jsonStringify2Fields d fs

end

/-- `JSON.stringify(v, null, 2)`. -/
def jsonStringify2 (v : JVal) : String := jsonStringify2At 0 v

/-- `v? || dflt`: the JS or-default idiom on a possibly absent field. -/
def jsOr (v? : Option JVal) (dflt : JVal) : JVal :=
  match v? with
  | some v => if v.truthy then v else dflt
  | none => dflt

/-! ## notebook-parser.ts -/

/-- The cell record pushed by `parseNotebook` (src/utils/notebook-parser.ts).
`cell_type` is stored exactly as found on the input cell (the code only
checks truthiness, not membership in `code | markdown | raw`);
`source` has been normalised to a single string. -/
structure NotebookCell where
  cell_type : JVal
  source : String
  metadata : JVal
  execution_count : JVal
  outputs : JVal

/-- `source` normalisation: join a line array with `''`, keep a string,
anything else becomes `''`. -/
def normalizeSource (src? : Option JVal) : String :=
  match src? with
  | some (.arr xs) => jsJoinEmptyV xs
  | some (.str s) => s
  | _ => ""

/-- The `for (const cell of data.cells)` loop of `parseNotebook`.  The
read `cell.cell_type` on a `null` cell throws (`Except.error ()`),
aborting the loop as in JS — property reads on any non-`null` value
cannot throw; the surrounding `try/catch` is applied by
`parseNotebookVal`. -/
def parseCellsLoop : List JVal → Except Unit (List NotebookCell)
  | [] => .ok []
  | cell :: rest =>
    match cell with
    | .null => .error ()
    | c =>
      match c.getF "cell_type" with
      | none => parseCellsLoop rest
      | some ct =>
        if ct.truthy then
          match parseCellsLoop rest with
          | .ok cs =>
            .ok ({ cell_type := ct
                   source := normalizeSource (c.getF "source")
                   metadata := jsOr (c.getF "metadata") (.obj [])
                   execution_count := (c.getF "execution_count").getD .null
                   outputs := jsOr (c.getF "outputs") (.arr []) } :: cs)
          | .error e => .error e
        else
          parseCellsLoop rest

/-- Log line of the malformed-document warning. -/
def warnMsg : String := "Invalid notebook format: cells array not found"

/-- Log line of the catch-all error handler. -/
def errMsg : String := "Error parsing notebook:"

/-- `parseNotebook` on an already-parsed JSON value: returns the cell
list together with the log lines it emitted.  The `try/catch` of the
source means the function never throws: a `TypeError` from the loop
degrades to `([], [errMsg])`. -/
def parseNotebookVal (data : JVal) : List NotebookCell × List String :=
  if ¬ data.truthy then ([], [warnMsg])
  else
    match data.getF "cells" with
    | some (.arr cells) =>
      match parseCellsLoop cells with
      | .ok cs => (cs, [])
      | .error _ => ([], [errMsg])
    | _ => ([], [warnMsg])

/-- `parseNotebook` itself: a string input is first run through
`JSON.parse` (passed here as the parameter `jsonParse`, with `none`
standing for a parse exception, which the `catch` turns into a logged
error and an empty result). -/
def parseNotebook (jsonParse : String → Option JVal) :
    String ⊕ JVal → List NotebookCell × List String
  | .inr v => parseNotebookVal v
  | .inl s =>
    match jsonParse s with
    | none => ([], [errMsg])
    | some v => parseNotebookVal v

/-! ### convertNotebookOutputs -/

/-- Output item tags (`OutputItem.type` in
src/services/floating-window-manager.ts). -/
inductive OutputType where
  | stream
  | execute_result
  | display_data
  | error
deriving DecidableEq

/-- `OutputItem` of src/services/floating-window-manager.ts. -/
structure OutputItem where
  type : OutputType
  content : String
  timestamp : Nat
deriving DecidableEq

/-- The `stream` case: `output.text || ''`, joined with `''` if it is an
array.  A non-string scalar flows into `content` unchanged in JS and is
rendered when displayed; the model applies the string coercion here. -/
def streamTextOf (output : JVal) : String :=
  match output.truthyF "text" with
  | some (.arr xs) => jsJoinEmptyV xs
  | some v => jsToString v
  | none => ""

/-- Array-or-scalar to display text (`Array.isArray(x) ? x.join('') : x`). -/
def joinedOrSelf (v : JVal) : String :=
  match v with
  | .arr xs => jsJoinEmptyV xs
  | v => jsToString v

/-- The `execute_result` / `display_data` content selection from
`output.data || {}`: `text/html`, then `text/plain`, then the embedded
`image/png` / `image/jpeg` reference, then `JSON.stringify(data, null, 2)`. -/
def displayContentOf (data : JVal) : String :=
  match data.truthyF "text/html" with
  | some v => joinedOrSelf v
  | none =>
    match data.truthyF "text/plain" with
    | some v => joinedOrSelf v
    | none =>
      match data.truthyF "image/png" with
      | some v => "<img src=\"data:image/png;base64," ++ joinedOrSelf v ++ "\" />"
      | none =>
        match data.truthyF "image/jpeg" with
        | some v => "<img src=\"data:image/jpeg;base64," ++ joinedOrSelf v ++ "\" />"
        | none => jsonStringify2 data

/-- The `error` case text:
`` `${ename}: ${evalue}\n${Array.isArray(traceback) ? traceback.join('\n') : ''}` ``. -/
def errorTextOf (output : JVal) : String :=
  let ename := match output.truthyF "ename" with
    | some v => jsToString v
    | none => "Error"
  let evalue := match output.truthyF "evalue" with
    | some v => jsToString v
    | none => ""
  let traceback := jsOr (output.getF "traceback") (.arr [])
  let tbText := match traceback with
    | .arr xs => jsJoinV "\n" xs
    | _ => ""
  ename ++ ": " ++ evalue ++ "\n" ++ tbText

/-- One iteration of the `convertNotebookOutputs` loop: the produced
item(s) for a single output record.  Reading `output.output_type` on a
`null` record throws; there is no `catch` in this function. -/
def convertOneOutput (now : Nat) (output : JVal) : Except Unit (List OutputItem) :=
  match output with
  | .null => .error ()
  | _ =>
    .ok <|
      match output.getF "output_type" with
      | some (.str "stream") =>
        [{ type := .stream, content := streamTextOf output, timestamp := now }]
      | some (.str "execute_result") =>
        [{ type := .execute_result
           content := displayContentOf (jsOr (output.getF "data") (.obj []))
           timestamp := now }]
      | some (.str "display_data") =>
        [{ type := .display_data
           content := displayContentOf (jsOr (output.getF "data") (.obj []))
           timestamp := now }]
      | some (.str "error") =>
        [{ type := .error, content := errorTextOf output, timestamp := now }]
      | _ => []

/-- The loop of `convertNotebookOutputs` over the outputs array. -/
def convertOutputsLoop (now : Nat) : List JVal → Except Unit (List OutputItem)
  | [] => .ok []
  | o :: rest => do
    let items ← convertOneOutput now o
    let restItems ← convertOutputsLoop now rest
    .ok (items ++ restItems)

/-- `convertNotebookOutputs(notebookOutputs)`: a non-array (or empty)
argument yields `[]` immediately. -/
def convertNotebookOutputs (now : Nat) : JVal → Except Unit (List OutputItem)
  | .arr [] => .ok []
  | .arr xs => convertOutputsLoop now xs
  | _ => .ok []

/-! ## floating-window-manager.ts -/

/-- `WindowType` (src/floating-window-manager.ts). -/
inductive WindowType where
  | editor
  | output
  | markdown
deriving DecidableEq

/-- `FloatingWindow` (src/floating-window-manager.ts).  Coordinates are
modelled as integers; the registry only stores and copies them. -/
structure FloatingWindow where
  id : String
  type : WindowType
  title : String
  x : Int
  y : Int
  width : Int
  height : Int
  zIndex : Nat
  isMinimized : Bool
  content : String
  linkedWindowId : Option String
deriving DecidableEq

/-- The private state of a `FloatingWindowManager`: the insertion-ordered
`Map` of windows together with the two counters.  The listener set has no
effect on the registry state and is not modelled. -/
structure FWMState where
  windows : List (String × FloatingWindow)
  nextId : Nat
  maxZIndex : Nat
deriving DecidableEq

/-- A fresh manager: `windows = new Map()`, `nextId = 1`,
`maxZIndex = 1000`. -/
def initialState : FWMState := ⟨[], 1, 1000⟩

/-- `Map.prototype.get`. -/
def mapGet (m : List (String × FloatingWindow)) (k : String) :
    Option FloatingWindow :=
  alookup m k

/-- Replace the value stored under `k` in place (every entry keyed `k`;
a `Map`-built list has at most one). -/
def replaceKey : List (String × FloatingWindow) → String → FloatingWindow →
    List (String × FloatingWindow)
  | [], _, _ => []
  | p :: rest, k, v =>
    (if p.1 = k then (k, v) else p) :: replaceKey rest k v

/-- `Map.prototype.set`: update in place if the key is present (keeping
its insertion position), otherwise append. -/
def mapSet (m : List (String × FloatingWindow)) (k : String)
    (v : FloatingWindow) : List (String × FloatingWindow) :=
  if (alookup m k).isSome then replaceKey m k v
  else m ++ [(k, v)]

/-- `Map.prototype.delete`. -/
def mapDelete (m : List (String × FloatingWindow)) (k : String) :
    List (String × FloatingWindow) :=
  m.filter (fun p => p.1 ≠ k)

/-- `createWindow(type, title, content, linkedWindowId?)`: allocates
`` `window-${nextId++}` ``, assigns `zIndex = ++maxZIndex`, cascades the
initial position by 30px per live window, and stores the record.
Returns the id with the new state. -/
def createWindow (st : FWMState) (type : WindowType)
    (title : String := "Untitled") (content : String := "")
    (linkedWindowId : Option String := none) : String × FWMState :=
  let id := mkId st.nextId
  let defaultWidth : Int := if type = .output then 800 else 700
  let defaultHeight : Int := if type = .output then 600 else 600
  let offsetMultiplier : Int := st.windows.length
  let newWindow : FloatingWindow :=
    { id := id
      type := type
      title := title
      x := 100 + offsetMultiplier * 30
      y := 100 + offsetMultiplier * 30
      width := defaultWidth
      height := defaultHeight
      zIndex := st.maxZIndex + 1
      isMinimized := false
      content := content
      linkedWindowId := linkedWindowId }
  (id, { windows := mapSet st.windows id newWindow
         nextId := st.nextId + 1
         maxZIndex := st.maxZIndex + 1 })

/-- `closeWindow(id)`: no-op on an unknown id; closing an `editor`
window first deletes every window whose `linkedWindowId` is this id. -/
def closeWindow (st : FWMState) (id : String) : FWMState :=
  match mapGet st.windows id with
  | none => st
  | some w =>
    let afterCascade :=
      if w.type = .editor then
        let linkedWindows :=
          st.windows.filter (fun p => p.2.linkedWindowId == some id)
        linkedWindows.foldl (fun acc p => mapDelete acc p.1) st.windows
      else
        st.windows
    { st with windows := mapDelete afterCascade id }

/-- Common shape of the single-record mutators: look the window up, and
on success replace it by `f window`; silently a no-op on an unknown id. -/
def updateWith (st : FWMState) (id : String)
    (f : FloatingWindow → FloatingWindow) : FWMState :=
  match mapGet st.windows id with
  | none => st
  | some w => { st with windows := mapSet st.windows id (f w) }

/-- `minimizeWindow(id)`: toggle `isMinimized`. -/
def minimizeWindow (st : FWMState) (id : String) : FWMState :=
  updateWith st id (fun w => { w with isMinimized := !w.isMinimized })

/-- `bringToFront(id)`: assign `zIndex = ++maxZIndex`. -/
def bringToFront (st : FWMState) (id : String) : FWMState :=
  match mapGet st.windows id with
  | none => st
  | some w =>
    { st with
        windows := mapSet st.windows id { w with zIndex := st.maxZIndex + 1 }
        maxZIndex := st.maxZIndex + 1 }

/-- `updatePosition(id, x, y)`. -/
def updatePosition (st : FWMState) (id : String) (x y : Int) : FWMState :=
  updateWith st id (fun w => { w with x := x, y := y })

/-- `updateSize(id, width, height)`. -/
def updateSize (st : FWMState) (id : String) (width height : Int) : FWMState :=
  updateWith st id (fun w => { w with width := width, height := height })

/-- `updateContent(id, content)`. -/
def updateContent (st : FWMState) (id : String) (content : String) : FWMState :=
  updateWith st id (fun w => { w with content := content })

/-- `updateTitle(id, title)`. -/
def updateTitle (st : FWMState) (id : String) (title : String) : FWMState :=
  updateWith st id (fun w => { w with title := title })

/-- `getWindow(id)`. -/
def getWindow (st : FWMState) (id : String) : Option FloatingWindow :=
  mapGet st.windows id

/-- `getAllWindows()`: the values in insertion order. -/
def getAllWindows (st : FWMState) : List FloatingWindow :=
  st.windows.map (·.2)

/-- `clearAllWindows()`: `windows.clear()` only — the counters are not
reset. -/
def clearAllWindows (st : FWMState) : FWMState :=
  { st with windows := [] }

/-- One public mutating call of the registry. -/
inductive Op where
  | create (type : WindowType) (title content : String) (linked : Option String)
  | close (id : String)
  | minimize (id : String)
  | front (id : String)
  | setPos (id : String) (x y : Int)
  | setSize (id : String) (w h : Int)
  | setContent (id : String) (c : String)
  | setTitle (id : String) (t : String)
  | clearAll

/-- Apply one call to the state (the id returned by `create` is dropped
here; `runEvents` below records it). -/
def applyOp (st : FWMState) : Op → FWMState
  | .create t ti c l => (createWindow st t ti c l).2
  | .close id => closeWindow st id
  | .minimize id => minimizeWindow st id
  | .front id => bringToFront st id
  | .setPos id x y => updatePosition st id x y
  | .setSize id w h => updateSize st id w h
  | .setContent id c => updateContent st id c
  | .setTitle id t => updateTitle st id t
  | .clearAll => clearAllWindows st

/-- The state after a call sequence on a fresh manager. -/
def runOps (ops : List Op) : FWMState :=
  ops.foldl applyOp initialState

/-! ### Allocation trace

`runEvents` instruments `runOps` with the observable allocations: the id
and `zIndex` handed out by each `createWindow`, and the `zIndex`
assigned by each effective `bringToFront`. -/

/-- An id/z-order allocation event. -/
inductive REv where
  | created (k : Nat) (id : String) (z : Nat)
  | raised (id : String) (z : Nat)
deriving DecidableEq

/-- The z-order value assigned by an event. -/
def evZ : REv → Nat
  | .created _ _ z => z
  | .raised _ z => z

/-- Whether the event is a `createWindow` return. -/
def evIsCreated : REv → Bool
  | .created _ _ _ => true
  | .raised _ _ => false

/-- The `nextId` counter value consumed by a creation event. -/
def createdKs (evs : List REv) : List Nat :=
  evs.filterMap (fun e => match e with
    | .created k _ _ => some k
    | _ => none)

/-- The ids returned by the creation events. -/
def createdIds (evs : List REv) : List String :=
  evs.filterMap (fun e => match e with
    | .created _ id _ => some id
    | _ => none)

/-- Apply one call, also emitting its allocation events. -/
def applyOpEv (st : FWMState) (op : Op) : FWMState × List REv :=
  match op with
  | .create t ti c l =>
    let (id, st') := createWindow st t ti c l
    (st', [.created st.nextId id (st.maxZIndex + 1)])
  | .front id =>
    match mapGet st.windows id with
    | none => (applyOp st op, [])
    | some _ => (applyOp st op, [.raised id (st.maxZIndex + 1)])
  | _ => (applyOp st op, [])

/-- Run a call sequence from a fresh manager, accumulating events. -/
def runEvents (ops : List Op) : FWMState × List REv :=
  ops.foldl
    (fun acc op =>
      let (st', evs) := applyOpEv acc.1 op
      (st', acc.2 ++ evs))
    (initialState, [])

/-! ## The cell serialization fragment of `saveNotebook`
(components/widget.tsx) -/

/-- The window record consumed by `saveNotebook`: the fields of the
services-side `FloatingWindow` that the serializer reads (that manager
additionally stores the accumulated `initialOutputs` on output
windows). -/
structure SWindow where
  id : String
  type : WindowType
  content : String
  linkedWindowId : Option String
  initialOutputs : Option (List OutputItem)
deriving DecidableEq

/-- Re-encoding of one accumulated `OutputItem` as a notebook output
record (the `outputWindow.initialOutputs.forEach` body of
`saveNotebook`). -/
def serializeOutputItem (item : OutputItem) : JVal :=
  match item.type with
  | .stream =>
    .obj [("output_type", .str "stream"),
          ("name", .str "stdout"),
          ("text", .arr ((jsSplit '\n' item.content).map .str))]
  | .execute_result =>
    .obj [("output_type", .str "execute_result"),
          ("data", .obj [("text/plain", .arr [.str item.content])]),
          ("metadata", .obj [])]
  | .display_data =>
    .obj [("output_type", .str "display_data"),
          ("data", .obj [("text/plain", .arr [.str item.content])]),
          ("metadata", .obj [])]
  | .error =>
    let lines := jsSplit '\n' item.content
    let line0 := lines.headD ""
    let pieces := jsSplit ':' line0
    let ename0 := pieces.headD ""
    let ename := if ename0 = "" then "Error" else ename0
    let evalue0 := jsTrim (jsJoin ":" (pieces.drop 1))
    let evalue := evalue0
    .obj [("output_type", .str "error"),
          ("ename", .str ename),
          ("evalue", .str evalue),
          ("traceback", .arr ((lines.drop 1).map .str))]

/-- The notebook outputs of an editor window's code cell: the linked
output window's accumulated items (if any), re-encoded. -/
def editorCellOutputs (allWindows : List SWindow) (w : SWindow) : List JVal :=
  let outputWindow := allWindows.find? (fun ow =>
    ow.type == WindowType.output && ow.linkedWindowId == some w.id)
  match outputWindow with
  | some ow =>
    match ow.initialOutputs with
    | some items => items.map serializeOutputItem
    | none => []
  | none => []

/-- An editor window as a code cell: source split on `'\n'`, outputs
re-encoded from the linked output window's accumulated items (if any). -/
def serializeEditorCell (allWindows : List SWindow) (w : SWindow) : JVal :=
  let source := w.content
  .obj [("cell_type", .str "code"),
        ("source", .arr ((jsSplit '\n' source).map .str)),
        ("metadata", .obj []),
        ("execution_count", .null),
        ("outputs", .arr (editorCellOutputs allWindows w))]

/-- A markdown window as a markdown cell. -/
def serializeMarkdownCell (w : SWindow) : JVal :=
  .obj [("cell_type", .str "markdown"),
        ("source", .arr ((jsSplit '\n' w.content).map .str)),
        ("metadata", .obj [])]

/-- The cell array assembled by `saveNotebook`: editor windows first
(as code cells), then markdown windows; output windows only contribute
via the editor they are linked to. -/
def saveNotebookCells (allWindows : List SWindow) : List JVal :=
  (allWindows.filter (fun w => w.type == WindowType.editor)).map
      (serializeEditorCell allWindows) ++
    (allWindows.filter (fun w => w.type == WindowType.markdown)).map
      serializeMarkdownCell

/-- The fixed metadata defaulted in when the current document has none. -/
def defaultNotebookMetadata : JVal :=
  .obj [("kernelspec",
          .obj [("display_name", .str "Python 3"),
                ("language", .str "python"),
                ("name", .str "python3")]),
        ("language_info",
          .obj [("name", .str "python"),
                ("version", .str "3.0.0")])]

/-- The notebook document written by `saveNotebook`; `current` is
`model.toJSON()`, whose metadata and format versions are carried over
when truthy. -/
def saveNotebookDoc (allWindows : List SWindow) (current : JVal) : JVal :=
  .obj [("cells", .arr (saveNotebookCells allWindows)),
        ("metadata", jsOr (current.getF "metadata") defaultNotebookMetadata),
        ("nbformat", jsOr (current.getF "nbformat") (.num 4)),
        ("nbformat_minor", jsOr (current.getF "nbformat_minor") (.num 4))]

/-! ## Derived notions used in the claim statements -/

/-- `parseNotebook` keeps a cell iff its `cell_type` field is present and
truthy (`!cell.cell_type` is the only filter in the loop). -/
def keepCell (cell : JVal) : Bool :=
  ((cell.getF "cell_type").map JVal.truthy).getD false

/-- The record `parseNotebook` pushes for a kept cell. -/
def mkParsedCell (cell : JVal) : NotebookCell :=
  { cell_type := (cell.getF "cell_type").getD .null
    source := normalizeSource (cell.getF "source")
    metadata := jsOr (cell.getF "metadata") (.obj [])
    execution_count := (cell.getF "execution_count").getD .null
    outputs := jsOr (cell.getF "outputs") (.arr []) }

/-- `s` with every newline character deleted. -/
def removeNewlines (s : String) : String :=
  ⟨s.data.filter (· != '\n')⟩

/-- Registry states reachable from a fresh manager by public calls. -/
inductive Reach : FWMState → Prop where
  | init : Reach initialState
  | step {st : FWMState} (op : Op) : Reach st → Reach (applyOp st op)

/-- The discipline under which the callers of the registry create
windows: a `linkedWindowId` argument is passed only when creating an
`output` window, and then it is the id of a currently live `editor`
window (`createOutputWindow` in the widget passes the id of the editor
window it just looked up). -/
def linkGuardOk (st : FWMState) : Op → Prop
  | .create t _ _ (some l) =>
    t = .output ∧ ∃ p ∈ st.windows, p.1 = l ∧ p.2.type = .editor
  | _ => True

/-- Registry states reachable when every `create` call respects
`linkGuardOk`. -/
inductive ReachG : FWMState → Prop where
  | init : ReachG initialState
  | step {st : FWMState} (op : Op) :
      ReachG st → linkGuardOk st op → ReachG (applyOp st op)

/-- Every `output` window's `linkedWindowId`, when present, names a live
`editor` window. -/
def linkedOk (st : FWMState) : Prop :=
  ∀ p ∈ st.windows, p.2.type = .output →
    ∀ t, p.2.linkedWindowId = some t →
      ∃ q ∈ st.windows, q.1 = t ∧ q.2.type = .editor

/-- The internal well-formedness of a reachable registry state. -/
structure StInv (st : FWMState) : Prop where
  keys_nodup : (st.windows.map (fun p => p.1)).Nodup
  z_le : ∀ p ∈ st.windows, p.2.zIndex ≤ st.maxZIndex
  z_nodup : (st.windows.map (fun p => p.2.zIndex)).Nodup
  key_lt : ∀ p ∈ st.windows, ∃ k, k < st.nextId ∧ p.1 = mkId k

/-- Invariant tying the allocation trace to the state counters. -/
structure EvInv (st : FWMState) (evs : List REv) : Prop where
  z_le : ∀ e ∈ evs, evZ e ≤ st.maxZIndex
  z_chain : evs.Pairwise (fun a b => evZ a < evZ b)
  k_lt : ∀ k ∈ createdKs evs, k < st.nextId
  k_chain : (createdKs evs).Pairwise (· < ·)
  ids_eq : createdIds evs = (createdKs evs).map mkId

/-! ## String primitive lemmas -/

theorem digitVal_digitCh {d : Nat} (h : d < 10) : digitVal (digitCh d) = d := by
  interval_cases d <;> decide

theorem unDigits_append (l : List Char) (c : Char) :
    unDigits (l ++ [c]) = 10 * unDigits l + digitVal c := by
  simp [unDigits, List.foldl_append]

theorem unDigits_natCharsCore :
    ∀ fuel n, n < fuel → unDigits (natCharsCore fuel n) = n := by
  intro fuel
  induction fuel with
  | zero => intro n h; omega
  | succ f ih =>
    intro n h
    by_cases h10 : n < 10
    · simp [natCharsCore, h10, unDigits, digitVal_digitCh h10]
    · have hdiv : n / 10 < f := by omega
      simp only [natCharsCore, if_neg h10]
      rw [unDigits_append, ih _ hdiv, digitVal_digitCh (Nat.mod_lt _ (by omega))]
      omega

theorem natToStr_injective : Function.Injective natToStr := by
  intro m n h
  have hd : natCharsCore (m + 1) m = natCharsCore (n + 1) n :=
    congrArg String.data h
  have := unDigits_natCharsCore (m + 1) m (by omega)
  rw [hd, unDigits_natCharsCore (n + 1) n (by omega)] at this
  omega

/-! ### Split / join lemmas -/

theorem splitChars_cons (c x : Char) (xs : List Char) :
    splitChars c (x :: xs) =
      if x = c then [] :: splitChars c xs
      else (x :: (splitCh c xs).1) :: (splitCh c xs).2 := by
  simp only [splitChars, splitCh]
  split <;> rfl

theorem joinSepChars_cons_head (sep : List Char) (x : Char) (h : List Char)
    (t : List (List Char)) :
    joinSepChars sep ((x :: h) :: t) = x :: joinSepChars sep (h :: t) := by
  cases t <;> simp [joinSepChars]

theorem joinSepChars_nil_cons (sep : List Char) (h : List Char)
    (t : List (List Char)) :
    joinSepChars sep ([] :: h :: t) = sep ++ joinSepChars sep (h :: t) := by
  simp [joinSepChars]

/-- Joining with the separator inverts splitting: JS
`s.split(c).join(c) === s`. -/
theorem joinSep_splitChars (c : Char) (l : List Char) :
    joinSepChars [c] (splitChars c l) = l := by
  induction l with
  | nil => rfl
  | cons x xs ih =>
    rw [splitChars_cons]
    by_cases hx : x = c
    · rw [if_pos hx]
      have : splitChars c xs = (splitCh c xs).1 :: (splitCh c xs).2 := rfl
      rw [this, joinSepChars_nil_cons, ← this, ih]
      simp [hx]
    · rw [if_neg hx, joinSepChars_cons_head]
      have : splitChars c xs = (splitCh c xs).1 :: (splitCh c xs).2 := rfl
      rw [← this, ih]

/-- Joining with the empty separator after splitting deletes exactly the
separator characters: JS `s.split(c).join('')` removes every `c`. -/
theorem joinChars_splitChars (c : Char) (l : List Char) :
    joinChars (splitChars c l) = l.filter (· != c) := by
  induction l with
  | nil => rfl
  | cons x xs ih =>
    rw [splitChars_cons]
    by_cases hx : x = c
    · rw [if_pos hx]
      have : joinChars ([] :: splitChars c xs) = joinChars (splitChars c xs) := by
        simp [joinChars]
      rw [this, ih]
      simp [hx]
    · rw [if_neg hx]
      have : joinChars ((x :: (splitCh c xs).1) :: (splitCh c xs).2) =
          x :: joinChars (splitChars c xs) := by
        simp [joinChars, splitChars]
      rw [this, ih]
      simp [hx]

theorem splitCh_no_sep (c : Char) {a : List Char} (h : c ∉ a) :
    splitCh c a = (a, []) := by
  induction a with
  | nil => rfl
  | cons x xs ih =>
    have hx : ¬ x = c := fun e => h (e ▸ List.mem_cons_self x xs)
    have hxs : c ∉ xs := fun m => h (List.mem_cons_of_mem _ m)
    simp [splitCh, hx, ih hxs]

/-- Splitting a string whose prefix is separator-free peels the prefix off
as the first chunk. -/
theorem splitCh_append (c : Char) {a : List Char} (b : List Char) (h : c ∉ a) :
    splitCh c (a ++ c :: b) = (a, splitChars c b) := by
  induction a with
  | nil => simp [splitCh, splitChars]
  | cons x xs ih =>
    have hx : ¬ x = c := fun e => h (e ▸ List.mem_cons_self x xs)
    have hxs : c ∉ xs := fun m => h (List.mem_cons_of_mem _ m)
    simp [splitCh, hx, ih hxs]

theorem splitChars_append (c : Char) {a : List Char} (b : List Char)
    (h : c ∉ a) : splitChars c (a ++ c :: b) = a :: splitChars c b := by
  simp [splitChars, splitCh_append c b h, splitChars_cons]

theorem splitChars_no_sep (c : Char) {a : List Char} (h : c ∉ a) :
    splitChars c a = [a] := by
  simp [splitChars, splitCh_no_sep c h]

theorem trimChars_cons_of_ws {x : Char} (hx : jsWs x) (l : List Char) :
    trimChars (x :: l) = trimChars l := by
  simp [trimChars, List.dropWhile_cons, hx]

theorem filter_ne_eq_self_iff (c : Char) (l : List Char) :
    l.filter (· != c) = l ↔ c ∉ l := by
  rw [List.filter_eq_self]
  constructor
  · intro h hc
    have := h c hc
    simp at this
  · intro h a ha
    have : a ≠ c := fun e => h (e ▸ ha)
    simp [this]

/-! ### String-level wrappers -/

theorem string_data_append (s t : String) : (s ++ t).data = s.data ++ t.data := by
  cases s; cases t; rfl

theorem string_mk_inj {a b : List Char} (h : (⟨a⟩ : String) = ⟨b⟩) : a = b := by
  injection h

theorem mkId_injective : Function.Injective mkId := by
  intro m n h
  have hd := congrArg String.data h
  simp only [mkId] at hd
  rw [string_data_append, string_data_append] at hd
  have h2 : (natToStr m).data = (natToStr n).data :=
    List.append_cancel_left hd
  apply natToStr_injective
  cases hm : natToStr m
  cases hn : natToStr n
  rw [hm, hn] at h2
  simp at h2
  simp [h2]

/-! ## Supporting lemmas -/

theorem string_eta (s : String) : (⟨s.data⟩ : String) = s := by
  cases s; rfl

/-- `getFE` agrees with `getF` on every non-`null` receiver. -/
theorem getFE_eq_getF (v : JVal) (k : String) (h : v ≠ .null) :
    v.getFE k = .ok (v.getF k) := by
  cases v <;> first | rfl | exact absurd rfl h

/-- A value with a readable field is an object, hence truthy. -/
theorem truthy_of_getF_some {v : JVal} {k : String} {w : JVal}
    (h : v.getF k = some w) : v.truthy = true := by
  cases v <;> simp [JVal.getF, JVal.truthy] at h ⊢

/-! ## C9 / C10: parseNotebook error handling -/

/-- C9: for every input document whose `cells` field is missing or not an
array, `parseNotebook` returns the empty cell list and logs the
`Invalid notebook format` warning; the function is total (the source
wraps everything in `try/catch`), so it never raises. -/
theorem C9_parse_invalid_cells (v : JVal)
    (h : ∀ xs, v.getF "cells" ≠ some (.arr xs)) :
    parseNotebookVal v = ([], [warnMsg]) := by
  unfold parseNotebookVal
  by_cases ht : v.truthy
  · rw [if_neg (by simp [ht])]
    rcases hm : v.getF "cells" with _ | w
    · rfl
    · cases w <;> first | rfl | exact absurd hm (h _)
  · rw [if_pos (by simp [ht])]

/-- C9 witness: the spec's own example `{"cells": "not-an-array"}`. -/
theorem C9_parse_invalid_cells_witness :
    parseNotebookVal (.obj [("cells", .str "not-an-array")]) = ([], [warnMsg]) :=
  C9_parse_invalid_cells _ (fun xs h => by
    rw [show (JVal.obj [("cells", .str "not-an-array")]).getF "cells" =
        some (.str "not-an-array") from rfl] at h
    exact JVal.noConfusion (Option.some.inj h))

/-- C10: a string input is first put through `JSON.parse`; if the parse
throws (modelled by `jsonParse s = none`) the result is the empty cell
list with the logged error and no exception escapes, and on parse
success the function proceeds on the parsed value. -/
theorem C10_parse_string_input (jsonParse : String → Option JVal) (s : String) :
    (jsonParse s = none → parseNotebook jsonParse (.inl s) = ([], [errMsg])) ∧
    (∀ v, jsonParse s = some v →
      parseNotebook jsonParse (.inl s) = parseNotebookVal v) := by
  constructor
  · intro h
    simp [parseNotebook, h]
  · intro v h
    simp [parseNotebook, h]

/-- C10 witness: a concrete invalid-JSON string. -/
theorem C10_parse_string_input_witness :
    parseNotebook (fun _ => none) (.inl "\x7bnot json") = ([], [errMsg]) :=
  (C10_parse_string_input (fun _ => none) "\x7bnot json").1 rfl

/-! ### Join lemmas at the `String` level -/

theorem mk_append (s : String) (l : List Char) :
    s ++ (⟨l⟩ : String) = ⟨s.data ++ l⟩ := by
  cases s; rfl

theorem jsToStringElem_str (s : String) : jsToStringElem (.str s) = s := rfl

theorem map_jsToStringElem_str (ss : List String) :
    (ss.map JVal.str).map jsToStringElem = ss := by
  induction ss with
  | nil => rfl
  | cons a t ih => simp only [List.map_cons, jsToStringElem_str, ih]

theorem jsJoinEmptyV_map_str (ss : List String) :
    jsJoinEmptyV (ss.map .str) = jsJoinEmpty ss := by
  rw [jsJoinEmptyV, map_jsToStringElem_str]

theorem jsJoinEmpty_eq_foldr (ss : List String) :
    jsJoinEmpty ss = ss.foldr (· ++ ·) "" := by
  induction ss with
  | nil => rfl
  | cons x rest ih =>
    show (⟨joinChars (x.data :: rest.map String.data)⟩ : String) = _
    rw [show joinChars (x.data :: rest.map String.data) =
        x.data ++ joinChars (rest.map String.data) from rfl]
    rw [List.foldr_cons, ← ih]
    rw [show jsJoinEmpty rest = ⟨joinChars (rest.map String.data)⟩ from rfl]
    rw [mk_append]

theorem jsJoin_eq_intercalate (sep : String) (ss : List String) :
    jsJoin sep ss = intercalateStr sep ss := by
  induction ss with
  | nil => rfl
  | cons x rest ih =>
    cases rest with
    | nil => simp [jsJoin, joinSepChars, intercalateStr, string_eta]
    | cons y t =>
      show (⟨joinSepChars sep.data (x.data :: (y :: t).map String.data)⟩ : String) = _
      rw [show joinSepChars sep.data (x.data :: (y :: t).map String.data) =
          x.data ++ sep.data ++ joinSepChars sep.data ((y :: t).map String.data) from rfl]
      rw [show intercalateStr sep (x :: y :: t) =
          x ++ sep ++ intercalateStr sep (y :: t) from rfl]
      rw [← ih]
      rw [show jsJoin sep (y :: t) =
          ⟨joinSepChars sep.data ((y :: t).map String.data)⟩ from rfl]
      rw [mk_append (x ++ sep), string_data_append]

theorem jsJoinV_map_str (sep : String) (ss : List String) :
    jsJoinV sep (ss.map .str) = intercalateStr sep ss := by
  rw [jsJoinV, List.map_map]
  show jsJoin sep (ss.map fun s => s) = _
  rw [List.map_id', jsJoin_eq_intercalate]

/-! ## C7: convertNotebookOutputs case analysis -/

/-- C7: `convertNotebookOutputs` processes the records of the outputs
array in order and, on every object record, never raises; a `stream`
record becomes one item whose text joins the line array with `''`; an
`execute_result` / `display_data` record selects its text by the
priority `text/html`, then `text/plain`, then an embedded base64
`image/png` / `image/jpeg` reference, then `JSON.stringify(data, null, 2)`
of the whole data map; an `error` record formats
`name ++ ": " ++ value ++ "\n" ++ traceback joined by "\n"`, with `name`
defaulting to `"Error"` and `value` to `""` when absent; and a record
with any other (or no) `output_type` yields no item and no error. -/
theorem C7_convert_output_cases (now : Nat) :
    (∀ (o : JVal) (os : List JVal) (items rest : List OutputItem),
        convertOneOutput now o = .ok items →
        convertOutputsLoop now os = .ok rest →
        convertOutputsLoop now (o :: os) = .ok (items ++ rest)) ∧
    (∀ fields, ∃ items, convertOneOutput now (.obj fields) = .ok items) ∧
    (∀ fields (ss : List String),
        (JVal.obj fields).getF "output_type" = some (.str "stream") →
        (JVal.obj fields).getF "text" = some (.arr (ss.map .str)) →
        convertOneOutput now (.obj fields) =
          .ok [⟨.stream, ss.foldr (· ++ ·) "", now⟩]) ∧
    (∀ dfs (hs : List String),
        alookup dfs "text/html" = some (.arr (hs.map .str)) →
        displayContentOf (.obj dfs) = hs.foldr (· ++ ·) "") ∧
    (∀ dfs (ps : List String),
        alookup dfs "text/html" = none →
        alookup dfs "text/plain" = some (.arr (ps.map .str)) →
        displayContentOf (.obj dfs) = ps.foldr (· ++ ·) "") ∧
    (∀ dfs (bs : List String),
        alookup dfs "text/html" = none →
        alookup dfs "text/plain" = none →
        alookup dfs "image/png" = some (.arr (bs.map .str)) →
        displayContentOf (.obj dfs) =
          "<img src=\"data:image/png;base64," ++ bs.foldr (· ++ ·) "" ++ "\" />") ∧
    (∀ dfs (bs : List String),
        alookup dfs "text/html" = none →
        alookup dfs "text/plain" = none →
        alookup dfs "image/png" = none →
        alookup dfs "image/jpeg" = some (.arr (bs.map .str)) →
        displayContentOf (.obj dfs) =
          "<img src=\"data:image/jpeg;base64," ++ bs.foldr (· ++ ·) "" ++ "\" />") ∧
    (∀ dfs,
        alookup dfs "text/html" = none →
        alookup dfs "text/plain" = none →
        alookup dfs "image/png" = none →
        alookup dfs "image/jpeg" = none →
        displayContentOf (.obj dfs) = jsonStringify2 (.obj dfs)) ∧
    (∀ fields dfs,
        (JVal.obj fields).getF "output_type" = some (.str "execute_result") →
        (JVal.obj fields).getF "data" = some (.obj dfs) →
        convertOneOutput now (.obj fields) =
          .ok [⟨.execute_result, displayContentOf (.obj dfs), now⟩]) ∧
    (∀ fields dfs,
        (JVal.obj fields).getF "output_type" = some (.str "display_data") →
        (JVal.obj fields).getF "data" = some (.obj dfs) →
        convertOneOutput now (.obj fields) =
          .ok [⟨.display_data, displayContentOf (.obj dfs), now⟩]) ∧
    (∀ fields (nm vl : String) (tb : List String),
        (JVal.obj fields).getF "output_type" = some (.str "error") →
        (JVal.obj fields).getF "ename" = some (.str nm) → nm ≠ "" →
        (JVal.obj fields).getF "evalue" = some (.str vl) →
        (JVal.obj fields).getF "traceback" = some (.arr (tb.map .str)) →
        convertOneOutput now (.obj fields) =
          .ok [⟨.error, nm ++ ": " ++ vl ++ "\n" ++ intercalateStr "\n" tb, now⟩]) ∧
    (∀ fields,
        (JVal.obj fields).getF "output_type" = some (.str "error") →
        (JVal.obj fields).getF "ename" = none →
        (JVal.obj fields).getF "evalue" = none →
        (JVal.obj fields).getF "traceback" = none →
        convertOneOutput now (.obj fields) =
          .ok [⟨.error, "Error" ++ ": " ++ "" ++ "\n" ++ "", now⟩]) ∧
    (∀ fields (s : String),
        (JVal.obj fields).getF "output_type" = some (.str s) →
        s ≠ "stream" → s ≠ "execute_result" → s ≠ "display_data" → s ≠ "error" →
        convertOneOutput now (.obj fields) = .ok []) ∧
    (∀ fields,
        (JVal.obj fields).getF "output_type" = none →
        convertOneOutput now (.obj fields) = .ok []) := by
  refine ⟨?_, ?_, ?_, ?_, ?_, ?_, ?_, ?_, ?_, ?_, ?_, ?_, ?_, ?_⟩
  · intro o os items rest h1 h2
    simp only [convertOutputsLoop, h1, h2]
    rfl
  · intro fields
    exact ⟨_, rfl⟩
  · intro fields ss hot htext
    simp only [convertOneOutput, hot]
    simp [streamTextOf, JVal.truthyF, htext, JVal.truthy,
      jsJoinEmptyV_map_str, jsJoinEmpty_eq_foldr]
  · intro dfs hs hh
    simp only [displayContentOf, JVal.truthyF, JVal.getF, hh, JVal.truthy,
      if_true, joinedOrSelf, jsJoinEmptyV_map_str, jsJoinEmpty_eq_foldr]
  · intro dfs ps hh hp
    simp only [displayContentOf, JVal.truthyF, JVal.getF, hh, hp, JVal.truthy,
      if_true, joinedOrSelf, jsJoinEmptyV_map_str, jsJoinEmpty_eq_foldr]
  · intro dfs bs hh hp hg
    simp only [displayContentOf, JVal.truthyF, JVal.getF, hh, hp, hg,
      JVal.truthy, if_true, joinedOrSelf, jsJoinEmptyV_map_str,
      jsJoinEmpty_eq_foldr]
  · intro dfs bs hh hp hg hj
    simp only [displayContentOf, JVal.truthyF, JVal.getF, hh, hp, hg, hj,
      JVal.truthy, if_true, joinedOrSelf, jsJoinEmptyV_map_str,
      jsJoinEmpty_eq_foldr]
  · intro dfs hh hp hg hj
    simp only [displayContentOf, JVal.truthyF, JVal.getF, hh, hp, hg, hj]
  · intro fields dfs hot hdata
    simp only [convertOneOutput, hot, jsOr, hdata, JVal.truthy, if_true]
  · intro fields dfs hot hdata
    simp only [convertOneOutput, hot, jsOr, hdata, JVal.truthy, if_true]
  · intro fields nm vl tb hot hen hnm hev htb
    simp only [convertOneOutput, hot]
    by_cases hvl : vl = ""
    · subst hvl
      simp [errorTextOf, JVal.truthyF, hen, hev, htb, jsOr, JVal.truthy,
        jsToString, jsToStringElem_str, hnm, jsJoinV_map_str]
    · simp [errorTextOf, JVal.truthyF, hen, hev, htb, jsOr, JVal.truthy,
        jsToString, jsToStringElem_str, hnm, hvl, jsJoinV_map_str]
  · intro fields hot hen hev htb
    simp only [convertOneOutput, hot]
    simp only [errorTextOf, JVal.truthyF, hen, hev, htb, jsOr]
    rfl
  · intro fields s hot h1 h2 h3 h4
    simp only [convertOneOutput, hot]
    split <;> simp_all
  · intro fields hot
    simp only [convertOneOutput, hot]

/-- C7 witness: the stream clause at a concrete record. -/
theorem C7_convert_output_cases_witness :
    convertOneOutput 0 (.obj [("output_type", .str "stream"),
      ("text", .arr [.str "a", .str "b\n"])]) =
      .ok [⟨.stream, "ab\n", 0⟩] :=
  (C7_convert_output_cases 0).2.2.1
    [("output_type", .str "stream"), ("text", .arr [.str "a", .str "b\n"])]
    ["a", "b\n"] rfl rfl

/-! ## C8: which cells does parseNotebook skip? -/

/-- C8 counterexample: the claim says every parsed cell carries a
recognized cell type (`code`, `markdown` or `raw`), but the code only
skips a *falsy* `cell_type`: a cell typed `"foo"` is kept. -/
theorem C8_counterexample :
    ∃ c ∈ (parseNotebookVal (.obj [("cells", .arr
        [.obj [("cell_type", .str "foo"), ("source", .str "x")]])])).1,
      ¬(c.cell_type = .str "code" ∨ c.cell_type = .str "markdown" ∨
        c.cell_type = .str "raw") := by
  refine ⟨{ cell_type := .str "foo", source := "x", metadata := .obj []
            execution_count := .null, outputs := .arr [] }, ?_, ?_⟩
  · rw [show (parseNotebookVal (.obj [("cells", .arr
        [.obj [("cell_type", .str "foo"), ("source", .str "x")]])])).1 =
      [{ cell_type := .str "foo", source := "x", metadata := .obj []
         execution_count := .null, outputs := .arr [] }] from rfl]
    exact List.mem_singleton.mpr rfl
  · intro h
    rcases h with h | h | h <;> simp at h

/-- The parse loop keeps exactly the cells with a truthy `cell_type`. -/
theorem parseCellsLoop_eq (cs : List JVal) (hnn : ∀ c ∈ cs, c ≠ .null) :
    parseCellsLoop cs = .ok ((cs.filter keepCell).map mkParsedCell) := by
  induction cs with
  | nil => rfl
  | cons c rest ih =>
    have hc : c ≠ .null := hnn c (List.mem_cons_self c rest)
    have hrest := ih (fun x hx => hnn x (List.mem_cons_of_mem _ hx))
    cases c with
    | null => exact absurd rfl hc
    | bool b => simp [parseCellsLoop, keepCell, JVal.getF, hrest]
    | num n => simp [parseCellsLoop, keepCell, JVal.getF, hrest]
    | str s => simp [parseCellsLoop, keepCell, JVal.getF, hrest]
    | arr xs => simp [parseCellsLoop, keepCell, JVal.getF, hrest]
    | obj fs =>
      simp only [parseCellsLoop, JVal.getF]
      cases hct : alookup fs "cell_type" with
      | none => simp [hrest, keepCell, JVal.getF, hct]
      | some ct =>
        by_cases htr : ct.truthy
        · simp [hrest, keepCell, JVal.getF, hct, htr, mkParsedCell]
        · simp [hrest, keepCell, JVal.getF, hct, htr]

/-- C8 amended: `parseNotebook` skips exactly the cells whose
`cell_type` field is absent or falsy; every cell with a truthy
`cell_type` — recognized or not — is kept, in order, with its
`cell_type` stored unchanged. -/
theorem C8_parse_keeps_truthy_cell_types (d : JVal) (cs : List JVal)
    (hcells : d.getF "cells" = some (.arr cs))
    (hnn : ∀ c ∈ cs, c ≠ .null) :
    parseNotebookVal d = ((cs.filter keepCell).map mkParsedCell, []) := by
  have ht := truthy_of_getF_some hcells
  unfold parseNotebookVal
  rw [if_neg (by simp [ht]), hcells]
  dsimp only
  rw [parseCellsLoop_eq cs hnn]

/-- C8 amended witness: one falsy-typed, one unrecognized-typed and one
recognized cell. -/
theorem C8_parse_keeps_truthy_cell_types_witness :
    parseNotebookVal (.obj [("cells", .arr
      [ .obj [("cell_type", .str ""), ("source", .str "dropped")],
        .obj [("cell_type", .str "foo"), ("source", .str "x")],
        .obj [("cell_type", .str "code"), ("source", .str "y")]])]) =
    ([{ cell_type := .str "foo", source := "x", metadata := .obj []
        execution_count := .null, outputs := .arr [] },
      { cell_type := .str "code", source := "y", metadata := .obj []
        execution_count := .null, outputs := .arr [] }], []) :=
  C8_parse_keeps_truthy_cell_types
    (.obj [("cells", .arr
      [ .obj [("cell_type", .str ""), ("source", .str "dropped")],
        .obj [("cell_type", .str "foo"), ("source", .str "x")],
        .obj [("cell_type", .str "code"), ("source", .str "y")]])])
    [ .obj [("cell_type", .str ""), ("source", .str "dropped")],
      .obj [("cell_type", .str "foo"), ("source", .str "x")],
      .obj [("cell_type", .str "code"), ("source", .str "y")]]
    rfl
    (by intro c hc
        simp only [List.mem_cons, List.not_mem_nil, or_false] at hc
        rcases hc with h | h | h <;> subst h <;> intro he <;> cases he)

/-! ## C5 / C6: serialize-then-parse round trips -/

theorem map_data_map_mk (chunks : List (List Char)) :
    (chunks.map (fun l => (⟨l⟩ : String))).map String.data = chunks := by
  rw [List.map_map]
  have h : String.data ∘ (fun l : List Char => (⟨l⟩ : String)) = id :=
    funext fun l => rfl
  rw [h, List.map_id]

/-- `split('\n')` then `join('')` deletes exactly the newline characters. -/
theorem joinEmptyV_split (c : Char) (s : String) :
    jsJoinEmptyV ((jsSplit c s).map JVal.str) =
      (⟨s.data.filter (· != c)⟩ : String) := by
  rw [jsJoinEmptyV_map_str]
  unfold jsJoinEmpty jsSplit
  rw [map_data_map_mk, joinChars_splitChars]

theorem removeNewlines_eq_iff (s : String) :
    removeNewlines s = s ↔ '\n' ∉ s.data := by
  unfold removeNewlines
  constructor
  · intro h
    rw [← filter_ne_eq_self_iff '\n' s.data]
    exact string_mk_inj (by rw [h])
  · intro h
    rw [(filter_ne_eq_self_iff '\n' s.data).mpr h]

/-- `errorTextOf` on a record with string `ename`/`evalue` and a string
array `traceback`. -/
theorem errorTextOf_obj (fields : List (String × JVal)) (nm vl : String)
    (tb : List String)
    (hen : (JVal.obj fields).getF "ename" = some (.str nm)) (hnm : nm ≠ "")
    (hev : (JVal.obj fields).getF "evalue" = some (.str vl))
    (htb : (JVal.obj fields).getF "traceback" = some (.arr (tb.map .str))) :
    errorTextOf (.obj fields) =
      nm ++ ": " ++ vl ++ "\n" ++ intercalateStr "\n" tb := by
  by_cases hvl : vl = ""
  · subst hvl
    simp [errorTextOf, JVal.truthyF, hen, hev, htb, jsOr, JVal.truthy,
      jsToString, jsToStringElem_str, hnm, jsJoinV_map_str]
  · simp [errorTextOf, JVal.truthyF, hen, hev, htb, jsOr, JVal.truthy,
      jsToString, jsToStringElem_str, hnm, hvl, jsJoinV_map_str]

theorem intercalate_mk_splitChars (c : Char) (s : String) :
    intercalateStr (⟨[c]⟩ : String)
      ((splitChars c s.data).map (fun l => (⟨l⟩ : String))) = s := by
  rw [← jsJoin_eq_intercalate]
  unfold jsJoin
  rw [map_data_map_mk]
  rw [show ((⟨[c]⟩ : String)).data = [c] from rfl, joinSep_splitChars]

/-- Serializing an error item whose content has the canonical
`name: value\ntraceback` shape recovers the three fields. -/
theorem serializeError_eq (nm vl tb : String) (ts : Nat)
    (hnm : nm ≠ "") (hc : ':' ∉ nm.data) (hn1 : '\n' ∉ nm.data)
    (hn2 : '\n' ∉ vl.data) (htrim : jsTrim vl = vl) :
    serializeOutputItem ⟨.error, nm ++ ": " ++ vl ++ "\n" ++ tb, ts⟩ =
      .obj [("output_type", .str "error"),
            ("ename", .str nm),
            ("evalue", .str vl),
            ("traceback", .arr (((splitChars '\n' tb.data).map
              (fun l => (⟨l⟩ : String))).map .str))] := by
  have hdata : (nm ++ ": " ++ vl ++ "\n" ++ tb).data =
      (nm.data ++ ':' :: ' ' :: vl.data) ++ '\n' :: tb.data := by
    simp [string_data_append]
  have hfree : '\n' ∉ nm.data ++ ':' :: ' ' :: vl.data := by simp [hn1, hn2]
  have hlines : jsSplit '\n' (nm ++ ": " ++ vl ++ "\n" ++ tb) =
      (⟨nm.data ++ ':' :: ' ' :: vl.data⟩ : String) ::
        (splitChars '\n' tb.data).map (fun l => ⟨l⟩) := by
    unfold jsSplit
    rw [hdata, splitChars_append _ _ hfree]
    rfl
  have hpieces : jsSplit ':' (⟨nm.data ++ ':' :: ' ' :: vl.data⟩ : String) =
      (⟨nm.data⟩ : String) ::
        (splitChars ':' (' ' :: vl.data)).map (fun l => ⟨l⟩) := by
    unfold jsSplit
    rw [show (⟨nm.data ++ ':' :: ' ' :: vl.data⟩ : String).data =
        nm.data ++ ':' :: ' ' :: vl.data from rfl]
    rw [splitChars_append _ _ hc]
    rfl
  have hjoin : jsJoin ":"
      ((splitChars ':' (' ' :: vl.data)).map (fun l => (⟨l⟩ : String))) =
      (⟨' ' :: vl.data⟩ : String) := by
    unfold jsJoin
    rw [map_data_map_mk]
    rw [show (":" : String).data = [':'] from rfl, joinSep_splitChars]
  have htrim2 : jsTrim (⟨' ' :: vl.data⟩ : String) = vl := by
    rw [show jsTrim (⟨' ' :: vl.data⟩ : String) =
        (⟨trimChars (' ' :: vl.data)⟩ : String) from rfl]
    rw [trimChars_cons_of_ws (by decide)]
    exact htrim
  unfold serializeOutputItem
  dsimp only
  rw [hlines]
  dsimp only [List.headD]
  rw [hpieces]
  dsimp only [List.headD, List.drop]
  rw [string_eta, if_neg hnm, hjoin, htrim2]

/-- Converting the canonical serialized error record back. -/
theorem convertError_eq (nm vl tb : String) (now : Nat) (hnm : nm ≠ "") :
    convertOneOutput now (.obj [("output_type", .str "error"),
        ("ename", .str nm), ("evalue", .str vl),
        ("traceback", .arr (((splitChars '\n' tb.data).map
          (fun l => (⟨l⟩ : String))).map .str))]) =
      .ok [⟨.error, nm ++ ": " ++ vl ++ "\n" ++ tb, now⟩] := by
  rw [show convertOneOutput now (.obj [("output_type", .str "error"),
        ("ename", .str nm), ("evalue", .str vl),
        ("traceback", .arr (((splitChars '\n' tb.data).map
          (fun l => (⟨l⟩ : String))).map .str))]) =
      .ok [⟨.error, errorTextOf (.obj [("output_type", .str "error"),
        ("ename", .str nm), ("evalue", .str vl),
        ("traceback", .arr (((splitChars '\n' tb.data).map
          (fun l => (⟨l⟩ : String))).map .str))]), now⟩] from rfl]
  rw [errorTextOf_obj
    [("output_type", .str "error"), ("ename", .str nm), ("evalue", .str vl),
     ("traceback", .arr (((splitChars '\n' tb.data).map
       (fun l => (⟨l⟩ : String))).map .str))]
    nm vl ((splitChars '\n' tb.data).map (fun l => ⟨l⟩)) rfl hnm rfl rfl]
  rw [show ("\n" : String) = (⟨['\n']⟩ : String) from rfl,
    intercalate_mk_splitChars]

theorem convertOutputsLoop_singleton (now : Nat) (o : JVal)
    (items : List OutputItem) (h : convertOneOutput now o = .ok items) :
    convertOutputsLoop now [o] = .ok items := by
  simp only [convertOutputsLoop, h]
  show Except.ok (items ++ []) = Except.ok items
  rw [List.append_nil]

/-- C5 counterexample: a stream item whose content contains a newline
does not round-trip — `split('\n')` drops the newline characters and the
re-conversion joins with `''`, so `"a\nb"` comes back as `"ab"`. -/
theorem C5_counterexample :
    convertNotebookOutputs 0
        (.arr [serializeOutputItem ⟨.stream, "a\nb", 0⟩]) =
      .ok [⟨.stream, "ab", 0⟩] ∧ ("ab" : String) ≠ "a\nb" :=
  ⟨rfl, by decide⟩

/-- C5 amended: re-encoding an accumulated output item and converting it
back always yields a single item of the same type (first conjunct,
unconditional); the text round-trips exactly for `execute_result` and
`display_data`; for `stream` the text comes back with its newline
characters deleted (so it round-trips exactly iff it has none); for
`error` it round-trips exactly when the content has the canonical
`name: value\ntraceback` shape produced by the converter, with a
nonempty colon-free single-line name and a trim-stable single-line
value. -/
theorem C5_output_roundtrip (item : OutputItem) (now : Nat) :
    (∃ text, convertNotebookOutputs now (.arr [serializeOutputItem item]) =
      .ok [⟨item.type, text, now⟩]) ∧
    ((item.type = .execute_result ∨ item.type = .display_data) →
      convertNotebookOutputs now (.arr [serializeOutputItem item]) =
        .ok [⟨item.type, item.content, now⟩]) ∧
    (item.type = .stream →
      convertNotebookOutputs now (.arr [serializeOutputItem item]) =
        .ok [⟨.stream, removeNewlines item.content, now⟩]) ∧
    (item.type = .error →
      ∀ (nm vl tb : String),
        item.content = nm ++ ": " ++ vl ++ "\n" ++ tb →
        nm ≠ "" → ':' ∉ nm.data → '\n' ∉ nm.data →
        '\n' ∉ vl.data → jsTrim vl = vl →
        convertNotebookOutputs now (.arr [serializeOutputItem item]) =
          .ok [⟨.error, item.content, now⟩]) := by
  obtain ⟨ty, content, ts⟩ := item
  refine ⟨?_, ?_, ?_, ?_⟩
  · cases ty <;> exact ⟨_, rfl⟩
  · rintro (h | h) <;> subst h
    · rw [show convertNotebookOutputs now
          (.arr [serializeOutputItem ⟨.execute_result, content, ts⟩]) =
          .ok [⟨.execute_result, (⟨content.data ++ []⟩ : String), now⟩] from rfl,
        List.append_nil]
    · rw [show convertNotebookOutputs now
          (.arr [serializeOutputItem ⟨.display_data, content, ts⟩]) =
          .ok [⟨.display_data, (⟨content.data ++ []⟩ : String), now⟩] from rfl,
        List.append_nil]
  · intro h
    subst h
    rw [show convertNotebookOutputs now
        (.arr [serializeOutputItem ⟨.stream, content, ts⟩]) =
        .ok [⟨.stream, jsJoinEmptyV ((jsSplit '\n' content).map .str), now⟩]
        from rfl,
      joinEmptyV_split]
    rfl
  · intro h nm vl tb hcontent hnm hc hn1 hn2 htrim
    subst h
    dsimp only at hcontent
    subst hcontent
    rw [show convertNotebookOutputs now
        (.arr [serializeOutputItem ⟨.error, nm ++ ": " ++ vl ++ "\n" ++ tb, ts⟩]) =
        convertOutputsLoop now
          [serializeOutputItem ⟨.error, nm ++ ": " ++ vl ++ "\n" ++ tb, ts⟩]
        from rfl]
    rw [serializeError_eq nm vl tb ts hnm hc hn1 hn2 htrim]
    exact convertOutputsLoop_singleton now _ _ (convertError_eq nm vl tb now hnm)

/-- C5 witness: the error clause at the spec's own error example. -/
theorem C5_output_roundtrip_witness :
    convertNotebookOutputs 7
        (.arr [serializeOutputItem ⟨.error, "ValueError: bad\nl1\nl2", 0⟩]) =
      .ok [⟨.error, "ValueError: bad\nl1\nl2", 7⟩] :=
  (C5_output_roundtrip ⟨.error, "ValueError: bad\nl1\nl2", 0⟩ 7).2.2.2 rfl
    "ValueError" "bad" "l1\nl2" rfl (by decide) (by decide) (by decide)
    (by decide) rfl

/-- C6 counterexample: a markdown window whose content contains a
newline does not round-trip through serialize-then-parse — the source is
split on `'\n'` without keeping the terminators and re-joined with `''`,
so `"a\nb"` comes back as `"ab"`. -/
theorem C6_counterexample :
    (parseNotebookVal (saveNotebookDoc
        [⟨"w1", .markdown, "a\nb", none, none⟩] (.obj []))).1.map
        (fun c => c.source) = ["ab"] ∧
    ("ab" : String) ≠ "a\nb" :=
  ⟨rfl, by decide⟩

/-- C6 amended: serializing any window set and parsing the document back
yields one cell per editor window (typed `code`, editors first, in
order) and one per markdown window (typed `markdown`, after the
editors), each cell's normalized single-string source being that
window's content with every newline character deleted; the composition
is the identity on a window's content precisely when the content
contains no newline. -/
theorem C6_serialize_parse (ws : List SWindow) (current : JVal) :
    parseNotebookVal (saveNotebookDoc ws current) =
      ((ws.filter (fun w => w.type == WindowType.editor)).map (fun w =>
          { cell_type := .str "code"
            source := removeNewlines w.content
            metadata := .obj []
            execution_count := .null
            outputs := .arr (editorCellOutputs ws w) }) ++
        (ws.filter (fun w => w.type == WindowType.markdown)).map (fun w =>
          { cell_type := .str "markdown"
            source := removeNewlines w.content
            metadata := .obj []
            execution_count := .null
            outputs := .arr [] }), []) ∧
    (∀ w : SWindow, removeNewlines w.content = w.content ↔
      '\n' ∉ w.content.data) := by
  refine ⟨?_, fun w => removeNewlines_eq_iff w.content⟩
  have hnn : ∀ c ∈ saveNotebookCells ws, c ≠ .null := by
    intro c hc
    rcases List.mem_append.mp hc with h | h <;>
      rcases List.mem_map.mp h with ⟨w, _, he⟩ <;> rw [← he] <;>
      exact fun hnull => JVal.noConfusion hnull
  have hcells : (saveNotebookDoc ws current).getF "cells" =
      some (.arr (saveNotebookCells ws)) := rfl
  unfold parseNotebookVal
  rw [if_neg (by
    simp [show (saveNotebookDoc ws current).truthy = true from rfl])]
  rw [hcells]
  dsimp only
  rw [parseCellsLoop_eq _ hnn]
  have hkeep : (saveNotebookCells ws).filter keepCell =
      saveNotebookCells ws := by
    apply List.filter_eq_self.mpr
    intro c hc
    rcases List.mem_append.mp hc with h | h <;>
      rcases List.mem_map.mp h with ⟨w, _, he⟩ <;> rw [← he] <;> rfl
  rw [hkeep]
  unfold saveNotebookCells
  rw [List.map_append, List.map_map, List.map_map]
  have hed : (mkParsedCell ∘ serializeEditorCell ws) = fun w : SWindow =>
      ({ cell_type := .str "code"
         source := removeNewlines w.content
         metadata := .obj []
         execution_count := .null
         outputs := .arr (editorCellOutputs ws w) } : NotebookCell) := by
    funext w
    show mkParsedCell (serializeEditorCell ws w) = _
    rw [show mkParsedCell (serializeEditorCell ws w) =
      { cell_type := .str "code"
        source := jsJoinEmptyV ((jsSplit '\n' w.content).map .str)
        metadata := .obj []
        execution_count := .null
        outputs := .arr (editorCellOutputs ws w) } from rfl]
    rw [joinEmptyV_split]
    rfl
  have hmd : (mkParsedCell ∘ serializeMarkdownCell) = fun w : SWindow =>
      ({ cell_type := .str "markdown"
         source := removeNewlines w.content
         metadata := .obj []
         execution_count := .null
         outputs := .arr [] } : NotebookCell) := by
    funext w
    show mkParsedCell (serializeMarkdownCell w) = _
    rw [show mkParsedCell (serializeMarkdownCell w) =
      { cell_type := .str "markdown"
        source := jsJoinEmptyV ((jsSplit '\n' w.content).map .str)
        metadata := .obj []
        execution_count := .null
        outputs := .arr [] } from rfl]
    rw [joinEmptyV_split]
    rfl
  rw [hed, hmd]

/-- C6 witness: a two-window set — an editor and a markdown window —
serialized and parsed back; the newline-free markdown content
round-trips exactly. -/
theorem C6_serialize_parse_witness :
    parseNotebookVal (saveNotebookDoc
        [⟨"w1", .editor, "a\nb", none, none⟩,
         ⟨"w2", .markdown, "# t", none, none⟩] (.obj [])) =
      ([{ cell_type := .str "code", source := removeNewlines "a\nb"
          metadata := .obj [], execution_count := .null, outputs := .arr
            (editorCellOutputs
              [⟨"w1", .editor, "a\nb", none, none⟩,
               ⟨"w2", .markdown, "# t", none, none⟩]
              ⟨"w1", .editor, "a\nb", none, none⟩) },
        { cell_type := .str "markdown", source := removeNewlines "# t"
          metadata := .obj [], execution_count := .null,
          outputs := .arr [] }], []) :=
  (C6_serialize_parse
    [⟨"w1", .editor, "a\nb", none, none⟩,
     ⟨"w2", .markdown, "# t", none, none⟩] (.obj [])).1

/-! ## Registry map lemmas -/

theorem alookup_cons {α : Type} (p : String × α) (rest : List (String × α))
    (k : String) :
    alookup (p :: rest) k = if p.1 = k then some p.2 else alookup rest k := rfl

theorem alookup_mem {α : Type} {m : List (String × α)} {k : String} {v : α}
    (h : alookup m k = some v) : (k, v) ∈ m := by
  induction m with
  | nil => cases h
  | cons p rest ih =>
    by_cases hp : p.1 = k
    · rw [alookup_cons, if_pos hp] at h
      cases h
      rw [← hp]
      exact List.mem_cons_self p rest
    · rw [alookup_cons, if_neg hp] at h
      exact List.mem_cons_of_mem _ (ih h)

theorem alookup_eq_none {α : Type} {m : List (String × α)} {k : String}
    (h : ∀ p ∈ m, p.1 ≠ k) : alookup m k = none := by
  induction m with
  | nil => rfl
  | cons p rest ih =>
    simp only [alookup, if_neg (h p (List.mem_cons_self p rest))]
    exact ih (fun q hq => h q (List.mem_cons_of_mem _ hq))

theorem mapSet_fresh {m : List (String × FloatingWindow)} {k : String}
    (v : FloatingWindow) (h : alookup m k = none) :
    mapSet m k v = m ++ [(k, v)] := by
  simp [mapSet, h]

theorem mapSet_present {m : List (String × FloatingWindow)} {k : String}
    (v : FloatingWindow) (h : (alookup m k).isSome) :
    mapSet m k v = replaceKey m k v := by
  simp [mapSet, h]

theorem alookup_replaceKey_self {m : List (String × FloatingWindow)}
    {k : String} {w : FloatingWindow} (v : FloatingWindow)
    (h : alookup m k = some w) :
    alookup (replaceKey m k v) k = some v := by
  induction m with
  | nil => cases h
  | cons p rest ih =>
    by_cases hp : p.1 = k
    · rw [replaceKey, if_pos hp, alookup_cons]
      rw [if_pos rfl]
    · rw [alookup_cons, if_neg hp] at h
      rw [replaceKey, if_neg hp, alookup_cons, if_neg hp]
      exact ih h

theorem alookup_replaceKey_ne {m : List (String × FloatingWindow)}
    {k k' : String} (v : FloatingWindow) (h : k' ≠ k) :
    alookup (replaceKey m k v) k' = alookup m k' := by
  induction m with
  | nil => rfl
  | cons p rest ih =>
    by_cases hp : p.1 = k
    · have h1 : ¬ ((k, v).1 = k') := fun he => h (he.symm)
      have h2 : ¬ (p.1 = k') := fun he => h (hp ▸ he).symm
      rw [replaceKey, if_pos hp, alookup_cons, if_neg h1, alookup_cons,
        if_neg h2]
      exact ih
    · rw [replaceKey, if_neg hp, alookup_cons, alookup_cons]
      by_cases hpk : p.1 = k'
      · rw [if_pos hpk, if_pos hpk]
      · rw [if_neg hpk, if_neg hpk]
        exact ih

theorem keys_replaceKey (m : List (String × FloatingWindow)) (k : String)
    (v : FloatingWindow) :
    (replaceKey m k v).map (fun p => p.1) = m.map (fun p => p.1) := by
  induction m with
  | nil => rfl
  | cons p rest ih =>
    by_cases hp : p.1 = k
    · rw [replaceKey, if_pos hp, List.map_cons, List.map_cons, ih, hp]
    · rw [replaceKey, if_neg hp, List.map_cons, List.map_cons, ih]

theorem mem_replaceKey {m : List (String × FloatingWindow)} {k : String}
    {v : FloatingWindow} :
    ∀ p ∈ replaceKey m k v, p = (k, v) ∨ (p ∈ m ∧ p.1 ≠ k) := by
  induction m with
  | nil => intro p hp; cases hp
  | cons q rest ih =>
    intro p hp
    rw [replaceKey] at hp
    rcases List.mem_cons.mp hp with he | hrest
    · by_cases hq : q.1 = k
      · rw [if_pos hq] at he
        exact Or.inl he
      · rw [if_neg hq] at he
        exact Or.inr ⟨he ▸ List.mem_cons_self q rest, he ▸ hq⟩
    · rcases ih p hrest with h1 | ⟨h2, h3⟩
      · exact Or.inl h1
      · exact Or.inr ⟨List.mem_cons_of_mem _ h2, h3⟩

theorem mem_replaceKey_of_ne {m : List (String × FloatingWindow)}
    {k : String} (v : FloatingWindow) {p : String × FloatingWindow}
    (hp : p ∈ m) (hne : p.1 ≠ k) : p ∈ replaceKey m k v := by
  induction m with
  | nil => cases hp
  | cons q rest ih =>
    rw [replaceKey]
    rcases List.mem_cons.mp hp with he | hrest
    · subst he
      rw [if_neg hne]
      exact List.mem_cons_self p _
    · exact List.mem_cons_of_mem _ (ih hrest)

theorem mem_mapSet_of_mem_ne {m : List (String × FloatingWindow)}
    {k : String} (v : FloatingWindow) {p : String × FloatingWindow}
    (hp : p ∈ m) (hne : p.1 ≠ k) : p ∈ mapSet m k v := by
  unfold mapSet
  split
  · exact mem_replaceKey_of_ne v hp hne
  · exact List.mem_append_left _ hp

theorem self_mem_replaceKey {m : List (String × FloatingWindow)}
    {k : String} {w : FloatingWindow} (v : FloatingWindow)
    (h : alookup m k = some w) : (k, v) ∈ replaceKey m k v := by
  induction m with
  | nil => cases h
  | cons q rest ih =>
    rw [replaceKey]
    by_cases hq : q.1 = k
    · rw [if_pos hq]
      exact List.mem_cons_self _ _
    · rw [alookup_cons, if_neg hq] at h
      exact List.mem_cons_of_mem _ (ih h)

theorem replaceKey_not_present {m : List (String × FloatingWindow)}
    {k : String} (v : FloatingWindow) (h : ∀ p ∈ m, p.1 ≠ k) :
    replaceKey m k v = m := by
  induction m with
  | nil => rfl
  | cons q rest ih =>
    rw [replaceKey, if_neg (h q (List.mem_cons_self q rest))]
    rw [ih (fun p hp => h p (List.mem_cons_of_mem _ hp))]

theorem zmap_replaceKey_preserved {m : List (String × FloatingWindow)}
    {k : String} {w : FloatingWindow} (v : FloatingWindow)
    (hkeys : (m.map (fun p => p.1)).Nodup) (hl : alookup m k = some w)
    (hz : v.zIndex = w.zIndex) :
    (replaceKey m k v).map (fun p => p.2.zIndex) =
      m.map (fun p => p.2.zIndex) := by
  induction m with
  | nil => cases hl
  | cons q rest ih =>
    rw [List.map_cons, List.nodup_cons] at hkeys
    by_cases hq : q.1 = k
    · rw [alookup_cons, if_pos hq] at hl
      cases hl
      have hnp : ∀ p ∈ rest, p.1 ≠ k := by
        intro p hp he
        exact hkeys.1 (hq ▸ he ▸ List.mem_map.mpr ⟨p, hp, rfl⟩)
      rw [replaceKey, if_pos hq, replaceKey_not_present v hnp,
        List.map_cons, List.map_cons, hz]
    · rw [alookup_cons, if_neg hq] at hl
      rw [replaceKey, if_neg hq, List.map_cons, List.map_cons,
        ih hkeys.2 hl]

theorem zmem_replaceKey {m : List (String × FloatingWindow)} {k : String}
    {v : FloatingWindow} {z : Nat}
    (hz : z ∈ (replaceKey m k v).map (fun p => p.2.zIndex)) :
    z = v.zIndex ∨ z ∈ m.map (fun p => p.2.zIndex) := by
  rcases List.mem_map.mp hz with ⟨p, hp, he⟩
  rcases mem_replaceKey p hp with h1 | ⟨h2, _⟩
  · subst h1
    exact Or.inl he.symm
  · exact Or.inr (List.mem_map.mpr ⟨p, h2, he⟩)

theorem zmap_replaceKey_nodup {m : List (String × FloatingWindow)}
    {k : String} {w : FloatingWindow} {B : Nat} (v : FloatingWindow)
    (hkeys : (m.map (fun p => p.1)).Nodup) (hl : alookup m k = some w)
    (hB : ∀ p ∈ m, p.2.zIndex ≤ B)
    (hnodup : (m.map (fun p => p.2.zIndex)).Nodup) (hv : B < v.zIndex) :
    ((replaceKey m k v).map (fun p => p.2.zIndex)).Nodup := by
  induction m with
  | nil => exact List.nodup_nil
  | cons q rest ih =>
    rw [List.map_cons, List.nodup_cons] at hkeys
    rw [List.map_cons, List.nodup_cons] at hnodup
    by_cases hq : q.1 = k
    · have hnp : ∀ p ∈ rest, p.1 ≠ k := by
        intro p hp he
        exact hkeys.1 (hq ▸ he ▸ List.mem_map.mpr ⟨p, hp, rfl⟩)
      rw [replaceKey, if_pos hq, replaceKey_not_present v hnp,
        List.map_cons, List.nodup_cons]
      constructor
      · intro hmem
        rcases List.mem_map.mp hmem with ⟨p, hp, he⟩
        have he2 : p.2.zIndex = v.zIndex := he
        have := hB p (List.mem_cons_of_mem _ hp)
        omega
      · exact hnodup.2
    · rw [alookup_cons, if_neg hq] at hl
      rw [replaceKey, if_neg hq, List.map_cons, List.nodup_cons]
      constructor
      · intro hmem
        rcases zmem_replaceKey hmem with h1 | h1
        · have := hB q (List.mem_cons_self q rest)
          omega
        · exact hnodup.1 h1
      · exact ih hkeys.2 hl
          (fun p hp => hB p (List.mem_cons_of_mem _ hp)) hnodup.2

/-! ## Registry state invariant -/

theorem applyOp_counters_mono (st : FWMState) (op : Op) :
    st.nextId ≤ (applyOp st op).nextId ∧
    st.maxZIndex ≤ (applyOp st op).maxZIndex := by
  cases op <;>
    simp only [applyOp, createWindow, closeWindow, minimizeWindow,
      bringToFront, updatePosition, updateSize, updateContent, updateTitle,
      clearAllWindows, updateWith] <;>
    first
      | omega
      | (split <;> simp)

theorem closeWindow_windows_sublist (st : FWMState) (id : String) :
    (closeWindow st id).windows.Sublist st.windows := by
  have hfold : ∀ (l : List (String × FloatingWindow))
      (m : List (String × FloatingWindow)),
      (l.foldl (fun acc p => mapDelete acc p.1) m).Sublist m := by
    intro l
    induction l with
    | nil => intro m; exact List.Sublist.refl m
    | cons p rest ih =>
      intro m
      exact (ih (mapDelete m p.1)).trans (List.filter_sublist m)
  unfold closeWindow
  cases hm : mapGet st.windows id with
  | none => exact List.Sublist.refl _
  | some w =>
    dsimp only
    split
    · exact (List.filter_sublist _).trans (hfold _ _)
    · exact List.filter_sublist _

theorem closeWindow_counters (st : FWMState) (id : String) :
    (closeWindow st id).nextId = st.nextId ∧
    (closeWindow st id).maxZIndex = st.maxZIndex := by
  unfold closeWindow
  cases hm : mapGet st.windows id <;> simp

theorem stInv_initial : StInv initialState := by
  refine ⟨List.nodup_nil, ?_, List.nodup_nil, ?_⟩ <;>
    intro p hp <;> cases hp

theorem alookup_fresh_of_key_lt {st : FWMState} (h : StInv st) :
    alookup st.windows (mkId st.nextId) = none := by
  apply alookup_eq_none
  intro p hp
  rcases h.key_lt p hp with ⟨k₀, hk₀, hpk⟩
  rw [hpk]
  intro he
  exact absurd (mkId_injective he) (Nat.ne_of_lt hk₀)

theorem stInv_applyOp {st : FWMState} (h : StInv st) (op : Op) :
    StInv (applyOp st op) := by
  have hsub : ∀ (st' : FWMState),
      st'.windows.Sublist st.windows → st.nextId ≤ st'.nextId →
      st.maxZIndex ≤ st'.maxZIndex → StInv st' := by
    intro st' hs hn hz
    refine ⟨h.keys_nodup.sublist (hs.map _), ?_, h.z_nodup.sublist (hs.map _), ?_⟩
    · intro p hp
      exact le_trans (h.z_le p (hs.subset hp)) hz
    · intro p hp
      rcases h.key_lt p (hs.subset hp) with ⟨k₀, hk₀, hpk⟩
      exact ⟨k₀, lt_of_lt_of_le hk₀ hn, hpk⟩
  have hupd : ∀ (id : String) (f : FloatingWindow → FloatingWindow),
      (∀ w, (f w).zIndex = w.zIndex) → StInv (updateWith st id f) := by
    intro id f hf
    unfold updateWith
    cases hm : mapGet st.windows id with
    | none => exact h
    | some w =>
      have hw : alookup st.windows id = some w := hm
      have hz : (f w).zIndex ≤ st.maxZIndex := by
        rw [hf w]
        exact h.z_le (id, w) (alookup_mem hw)
      dsimp only
      rw [show mapSet st.windows id (f w) = replaceKey st.windows id (f w)
        from mapSet_present _ (by rw [hw]; rfl)]
      refine ⟨?_, ?_, ?_, ?_⟩
      · rw [keys_replaceKey]
        exact h.keys_nodup
      · intro p hp
        rcases mem_replaceKey p hp with h1 | ⟨h2, _⟩
        · rw [h1]
          exact hz
        · exact h.z_le p h2
      · rw [zmap_replaceKey_preserved (f w) h.keys_nodup hw (hf w)]
        exact h.z_nodup
      · intro p hp
        rcases mem_replaceKey p hp with h1 | ⟨h2, _⟩
        · rcases h.key_lt (id, w) (alookup_mem hw) with ⟨k₀, hk₀, hpk⟩
          exact ⟨k₀, hk₀, h1 ▸ hpk⟩
        · exact h.key_lt p h2
  cases op with
  | create t ti c l =>
    simp only [applyOp, createWindow]
    have hfresh := alookup_fresh_of_key_lt h
    rw [mapSet_fresh _ hfresh]
    have hkid : mkId st.nextId ∉ st.windows.map (fun p => p.1) := by
      intro hmem
      rcases List.mem_map.mp hmem with ⟨p, hp, he⟩
      rcases h.key_lt p hp with ⟨k₀, hk₀, hpk⟩
      rw [hpk] at he
      exact absurd (mkId_injective he) (Nat.ne_of_lt hk₀)
    refine ⟨?_, ?_, ?_, ?_⟩
    · rw [List.map_append]
      simp only [List.map_cons, List.map_nil]
      rw [List.nodup_append]
      exact ⟨h.keys_nodup, List.nodup_singleton _,
        fun a ha hb => by simp at hb; exact hkid (hb ▸ ha)⟩
    · intro p hp
      rcases List.mem_append.mp hp with h1 | h1
      · exact le_trans (h.z_le p h1) (Nat.le_succ _)
      · simp at h1
        rw [h1]
    · rw [List.map_append]
      simp only [List.map_cons, List.map_nil]
      rw [List.nodup_append]
      refine ⟨h.z_nodup, List.nodup_singleton _, ?_⟩
      intro a ha hb
      simp at hb
      rcases List.mem_map.mp ha with ⟨p, hp, he⟩
      have := h.z_le p hp
      omega
    · intro p hp
      rcases List.mem_append.mp hp with h1 | h1
      · rcases h.key_lt p h1 with ⟨k₀, hk₀, hpk⟩
        exact ⟨k₀, Nat.lt_succ_of_lt hk₀, hpk⟩
      · simp at h1
        exact ⟨st.nextId, Nat.lt_succ_self _, by rw [h1]⟩
  | close id =>
    simp only [applyOp]
    exact hsub _ (closeWindow_windows_sublist st id)
      (le_of_eq (closeWindow_counters st id).1.symm)
      (le_of_eq (closeWindow_counters st id).2.symm)
  | minimize id => exact hupd id _ (fun w => rfl)
  | front id =>
    simp only [applyOp, bringToFront]
    cases hm : mapGet st.windows id with
    | none => exact h
    | some w =>
      have hw : alookup st.windows id = some w := hm
      dsimp only
      rw [show mapSet st.windows id { w with zIndex := st.maxZIndex + 1 } =
          replaceKey st.windows id { w with zIndex := st.maxZIndex + 1 }
        from mapSet_present _ (by rw [hw]; rfl)]
      refine ⟨?_, ?_, ?_, ?_⟩
      · rw [keys_replaceKey]
        exact h.keys_nodup
      · intro p hp
        rcases mem_replaceKey p hp with h1 | ⟨h2, _⟩
        · rw [h1]
        · exact le_trans (h.z_le p h2) (Nat.le_succ _)
      · exact zmap_replaceKey_nodup _ h.keys_nodup hw h.z_le h.z_nodup
          (Nat.lt_succ_self _)
      · intro p hp
        rcases mem_replaceKey p hp with h1 | ⟨h2, _⟩
        · rcases h.key_lt (id, w) (alookup_mem hw) with ⟨k₀, hk₀, hpk⟩
          exact ⟨k₀, hk₀, h1 ▸ hpk⟩
        · exact h.key_lt p h2
  | setPos id x y => exact hupd id _ (fun w => rfl)
  | setSize id wd ht => exact hupd id _ (fun w => rfl)
  | setContent id c => exact hupd id _ (fun w => rfl)
  | setTitle id t => exact hupd id _ (fun w => rfl)
  | clearAll =>
    refine ⟨List.nodup_nil, ?_, List.nodup_nil, ?_⟩ <;>
      intro p hp <;> cases hp

theorem reach_stInv {st : FWMState} (h : Reach st) : StInv st := by
  induction h with
  | init => exact stInv_initial
  | step op _ ih => exact stInv_applyOp ih op

theorem reach_runOps (ops : List Op) : Reach (runOps ops) := by
  have : ∀ (l : List Op) (st : FWMState), Reach st →
      Reach (l.foldl applyOp st) := by
    intro l
    induction l with
    | nil => intro st hst; exact hst
    | cons op rest ih =>
      intro st hst
      exact ih (applyOp st op) (Reach.step op hst)
  exact this ops initialState Reach.init

/-! ## C3: bringToFront -/

/-- C3: in every reachable registry state containing a record with the
given id, `bringToFront(id)` strictly increases that record's `zIndex`
(also when it is already topmost — the counter is monotonic, not
idempotent) and makes it strictly greater than every other live
record's `zIndex`. -/
theorem C3_bring_to_front (st : FWMState) (hr : Reach st) (id : String)
    (w : FloatingWindow) (hw : getWindow st id = some w) :
    ∃ w', getWindow (bringToFront st id) id = some w' ∧
      w.zIndex < w'.zIndex ∧
      ∀ k v, k ≠ id → getWindow (bringToFront st id) k = some v →
        v.zIndex < w'.zIndex := by
  have hi := reach_stInv hr
  have hal : alookup st.windows id = some w := hw
  have hms : mapSet st.windows id { w with zIndex := st.maxZIndex + 1 } =
      replaceKey st.windows id { w with zIndex := st.maxZIndex + 1 } :=
    mapSet_present _ (by rw [hal]; rfl)
  have hb : bringToFront st id =
      { st with
          windows := replaceKey st.windows id
            { w with zIndex := st.maxZIndex + 1 }
          maxZIndex := st.maxZIndex + 1 } := by
    unfold bringToFront
    rw [show mapGet st.windows id = some w from hal]
    dsimp only
    rw [hms]
  refine ⟨{ w with zIndex := st.maxZIndex + 1 }, ?_, ?_, ?_⟩
  · rw [hb]
    exact alookup_replaceKey_self _ hal
  · show w.zIndex < st.maxZIndex + 1
    have h2 : w.zIndex ≤ st.maxZIndex := hi.z_le (id, w) (alookup_mem hal)
    omega
  · intro k v hk hv
    rw [hb] at hv
    have hv2 : alookup st.windows k = some v := by
      rw [← alookup_replaceKey_ne (m := st.windows)
        { w with zIndex := st.maxZIndex + 1 } hk]
      exact hv
    show v.zIndex < st.maxZIndex + 1
    have h2 : v.zIndex ≤ st.maxZIndex := hi.z_le (k, v) (alookup_mem hv2)
    omega

/-- C3 witness: raising the only window of a fresh manager. -/
theorem C3_bring_to_front_witness :
    ∃ w', getWindow (bringToFront (runOps [.create .editor "t" "c" none])
        "window-1") "window-1" = some w' ∧
      1001 < w'.zIndex ∧
      ∀ k v, k ≠ "window-1" →
        getWindow (bringToFront (runOps [.create .editor "t" "c" none])
          "window-1") k = some v → v.zIndex < w'.zIndex :=
  C3_bring_to_front (runOps [.create .editor "t" "c" none])
    (reach_runOps _) "window-1"
    { id := "window-1", type := .editor, title := "t", x := 100, y := 100
      width := 700, height := 600, zIndex := 1001, isMinimized := false
      content := "c", linkedWindowId := none } rfl

/-! ## C2: closeWindow -/

theorem alookup_mapDelete_self (m : List (String × FloatingWindow))
    (k : String) : alookup (mapDelete m k) k = none := by
  apply alookup_eq_none
  intro q hq
  have := (List.mem_filter.mp hq).2
  simpa using this

theorem closeWindow_getWindow_none (st : FWMState) (id : String)
    (h : getWindow st id ≠ none) :
    getWindow (closeWindow st id) id = none := by
  unfold closeWindow
  cases hm : mapGet st.windows id with
  | none => exact absurd hm h
  | some w => exact alookup_mapDelete_self _ id

theorem closeWindow_unknown (st : FWMState) (id : String)
    (h : getWindow st id = none) : closeWindow st id = st := by
  unfold closeWindow
  rw [show mapGet st.windows id = none from h]

theorem nodup_keys_eq {m : List (String × FloatingWindow)}
    (h : (m.map (fun p => p.1)).Nodup) {p q : String × FloatingWindow}
    (hp : p ∈ m) (hq : q ∈ m) (he : p.1 = q.1) : p = q := by
  induction m with
  | nil => cases hp
  | cons r rest ih =>
    rw [List.map_cons, List.nodup_cons] at h
    rcases List.mem_cons.mp hp with h1 | h1 <;>
      rcases List.mem_cons.mp hq with h2 | h2
    · rw [h1, h2]
    · subst h1
      exact absurd (he ▸ List.mem_map.mpr ⟨q, h2, rfl⟩) h.1
    · subst h2
      exact absurd (he ▸ List.mem_map.mpr ⟨p, h1, rfl⟩) h.1
    · exact ih h.2 h1 h2

theorem foldl_mapDelete_filter :
    ∀ (l m : List (String × FloatingWindow)),
      l.foldl (fun acc p => mapDelete acc p.1) m =
        m.filter (fun q => !(l.any (fun p => q.1 == p.1))) := by
  intro l
  induction l with
  | nil =>
    intro m
    simp [List.filter_eq_self]
  | cons p rest ih =>
    intro m
    rw [List.foldl_cons, ih (mapDelete m p.1)]
    unfold mapDelete
    rw [List.filter_filter]
    apply List.filter_congr
    intro q _
    simp only [List.any_cons, Bool.not_or, decide_not]
    rw [Bool.and_comm]
    congr 1

/-- C2: on every reachable registry state, closing an `editor` window
removes it together with every window whose `linkedWindowId` is its id;
closing the same id again is a no-op (the state is unchanged), and
closing an unknown id leaves the state unchanged; the operation is total
(never raises). -/
theorem C2_close_cascade (ops : List Op) (id : String) :
    (∀ w, getWindow (runOps ops) id = some w → w.type = .editor →
      (closeWindow (runOps ops) id).windows =
        (runOps ops).windows.filter
          (fun p => !(p.1 == id || p.2.linkedWindowId == some id))) ∧
    closeWindow (closeWindow (runOps ops) id) id =
      closeWindow (runOps ops) id ∧
    (getWindow (runOps ops) id = none →
      closeWindow (runOps ops) id = runOps ops) := by
  have hinv := reach_stInv (reach_runOps ops)
  refine ⟨?_, ?_, closeWindow_unknown _ _⟩
  · intro w hw he
    unfold closeWindow
    rw [show mapGet (runOps ops).windows id = some w from hw]
    dsimp only
    rw [if_pos he]
    rw [foldl_mapDelete_filter]
    unfold mapDelete
    rw [List.filter_filter]
    apply List.filter_congr
    intro q hq
    have hiff : ((runOps ops).windows.filter
        (fun p => p.2.linkedWindowId == some id)).any
          (fun p => q.1 == p.1) = (q.2.linkedWindowId == some id) := by
      by_cases hqi : q.2.linkedWindowId = some id
      · have h1 : ((runOps ops).windows.filter
            (fun p => p.2.linkedWindowId == some id)).any
              (fun p => q.1 == p.1) = true :=
          List.any_eq_true.mpr ⟨q, List.mem_filter.mpr ⟨hq, by simp [hqi]⟩,
            by simp⟩
        rw [h1]
        simp [hqi]
      · have h1 : ((runOps ops).windows.filter
            (fun p => p.2.linkedWindowId == some id)).any
              (fun p => q.1 == p.1) = false := by
          rw [← Bool.not_eq_true, List.any_eq_true]
          rintro ⟨p, hpmem, hpq⟩
          have hpf := List.mem_filter.mp hpmem
          have hpe : p = q := nodup_keys_eq hinv.keys_nodup hpf.1 hq
            (beq_iff_eq.mp hpq).symm
          rw [hpe] at hpf
          exact hqi (beq_iff_eq.mp hpf.2)
        rw [h1]
        simp [hqi]
    rw [hiff]
    by_cases hq1 : q.1 = id <;> simp [hq1, Bool.not_or, Bool.and_comm]
  · by_cases hm : getWindow (runOps ops) id = none
    · rw [closeWindow_unknown _ _ hm]
      exact closeWindow_unknown _ _ hm
    · exact closeWindow_unknown _ _
        (closeWindow_getWindow_none _ _ hm)

/-- C2 witness: closing an editor with one linked output removes both. -/
theorem C2_close_cascade_witness :
    (closeWindow (runOps [.create .editor "t" "c" none,
        .create .output "o" "" (some "window-1")]) "window-1").windows =
      (runOps [.create .editor "t" "c" none,
        .create .output "o" "" (some "window-1")]).windows.filter
        (fun p => !(p.1 == "window-1" ||
          p.2.linkedWindowId == some "window-1")) :=
  (C2_close_cascade [.create .editor "t" "c" none,
      .create .output "o" "" (some "window-1")] "window-1").1
    { id := "window-1", type := .editor, title := "t", x := 100, y := 100
      width := 700, height := 600, zIndex := 1001, isMinimized := false
      content := "c", linkedWindowId := none } rfl rfl

/-! ## C1: allocation trace -/

theorem createdKs_append (evs evs' : List REv) :
    createdKs (evs ++ evs') = createdKs evs ++ createdKs evs' :=
  List.filterMap_append _ _ _

theorem createdIds_append (evs evs' : List REv) :
    createdIds (evs ++ evs') = createdIds evs ++ createdIds evs' :=
  List.filterMap_append _ _ _

theorem evInv_mono {st st' : FWMState} {evs : List REv} (h : EvInv st evs)
    (hn : st.nextId ≤ st'.nextId) (hz : st.maxZIndex ≤ st'.maxZIndex) :
    EvInv st' evs :=
  ⟨fun e he => le_trans (h.z_le e he) hz, h.z_chain,
    fun k hk => lt_of_lt_of_le (h.k_lt k hk) hn, h.k_chain, h.ids_eq⟩

theorem evInv_snoc_created {st st' : FWMState} {evs : List REv}
    (h : EvInv st evs) (hn : st'.nextId = st.nextId + 1)
    (hz : st'.maxZIndex = st.maxZIndex + 1) :
    EvInv st' (evs ++
      [.created st.nextId (mkId st.nextId) (st.maxZIndex + 1)]) := by
  refine ⟨?_, ?_, ?_, ?_, ?_⟩
  · intro e he
    rcases List.mem_append.mp he with h1 | h1
    · exact le_trans (h.z_le e h1) (by omega)
    · simp at h1
      rw [h1, hz]
      exact le_refl _
  · rw [List.pairwise_append]
    refine ⟨h.z_chain, List.pairwise_singleton _ _, ?_⟩
    intro a ha b hb
    simp at hb
    rw [hb]
    have := h.z_le a ha
    show evZ a < evZ (.created st.nextId (mkId st.nextId) (st.maxZIndex + 1))
    show evZ a < st.maxZIndex + 1
    omega
  · intro k hk
    rw [createdKs_append] at hk
    rcases List.mem_append.mp hk with h1 | h1
    · have := h.k_lt k h1
      omega
    · simp [createdKs] at h1
      omega
  · rw [createdKs_append]
    rw [List.pairwise_append]
    refine ⟨h.k_chain, ?_, ?_⟩
    · show ([st.nextId] : List Nat).Pairwise (· < ·)
      exact List.pairwise_singleton _ _
    · intro a ha b hb
      have := h.k_lt a ha
      simp [createdKs] at hb
      omega
  · rw [createdKs_append, createdIds_append, List.map_append, h.ids_eq]
    rfl

theorem evInv_snoc_raised {st st' : FWMState} {evs : List REv}
    (h : EvInv st evs) (id : String) (hn : st'.nextId = st.nextId)
    (hz : st'.maxZIndex = st.maxZIndex + 1) :
    EvInv st' (evs ++ [.raised id (st.maxZIndex + 1)]) := by
  refine ⟨?_, ?_, ?_, ?_, ?_⟩
  · intro e he
    rcases List.mem_append.mp he with h1 | h1
    · exact le_trans (h.z_le e h1) (by omega)
    · simp at h1
      rw [h1, hz]
      exact le_refl _
  · rw [List.pairwise_append]
    refine ⟨h.z_chain, List.pairwise_singleton _ _, ?_⟩
    intro a ha b hb
    simp at hb
    rw [hb]
    have := h.z_le a ha
    show evZ a < st.maxZIndex + 1
    omega
  · intro k hk
    rw [createdKs_append] at hk
    rcases List.mem_append.mp hk with h1 | h1
    · have := h.k_lt k h1
      omega
    · simp [createdKs] at h1
  · rw [createdKs_append]
    rw [show createdKs [REv.raised id (st.maxZIndex + 1)] = [] from rfl,
      List.append_nil]
    exact h.k_chain
  · rw [createdKs_append, createdIds_append, List.map_append, h.ids_eq]
    rfl

theorem evInv_applyOpEv {st : FWMState} {evs : List REv} (h : EvInv st evs)
    (op : Op) :
    EvInv (applyOpEv st op).1 (evs ++ (applyOpEv st op).2) := by
  have hmono := applyOp_counters_mono st op
  cases op with
  | create t ti c l => exact evInv_snoc_created h rfl rfl
  | front id =>
    cases hm : mapGet st.windows id with
    | none =>
      simp only [applyOpEv, hm, List.append_nil]
      exact evInv_mono h (applyOp_counters_mono st (.front id)).1
        (applyOp_counters_mono st (.front id)).2
    | some w =>
      simp only [applyOpEv, hm]
      apply evInv_snoc_raised h id
      · show (applyOp st (.front id)).nextId = st.nextId
        simp [applyOp, bringToFront, hm]
      · show (applyOp st (.front id)).maxZIndex = st.maxZIndex + 1
        simp [applyOp, bringToFront, hm]
  | close id =>
    simp only [applyOpEv, List.append_nil]
    exact evInv_mono h hmono.1 hmono.2
  | minimize id =>
    simp only [applyOpEv, List.append_nil]
    exact evInv_mono h hmono.1 hmono.2
  | setPos id x y =>
    simp only [applyOpEv, List.append_nil]
    exact evInv_mono h hmono.1 hmono.2
  | setSize id wd ht =>
    simp only [applyOpEv, List.append_nil]
    exact evInv_mono h hmono.1 hmono.2
  | setContent id c =>
    simp only [applyOpEv, List.append_nil]
    exact evInv_mono h hmono.1 hmono.2
  | setTitle id t =>
    simp only [applyOpEv, List.append_nil]
    exact evInv_mono h hmono.1 hmono.2
  | clearAll =>
    simp only [applyOpEv, List.append_nil]
    exact evInv_mono h hmono.1 hmono.2

theorem evInv_runEvents (ops : List Op) :
    EvInv (runEvents ops).1 (runEvents ops).2 := by
  have hgen : ∀ (l : List Op) (acc : FWMState × List REv),
      EvInv acc.1 acc.2 →
      EvInv (l.foldl (fun acc op =>
          let (st', evs) := applyOpEv acc.1 op
          (st', acc.2 ++ evs)) acc).1
        (l.foldl (fun acc op =>
          let (st', evs) := applyOpEv acc.1 op
          (st', acc.2 ++ evs)) acc).2 := by
    intro l
    induction l with
    | nil => intro acc hacc; exact hacc
    | cons op rest ih =>
      intro acc hacc
      apply ih
      exact evInv_applyOpEv hacc op
  exact hgen ops (initialState, [])
    ⟨fun e he => absurd he (List.not_mem_nil e),
     List.Pairwise.nil,
     fun k hk => absurd hk (List.not_mem_nil k),
     List.Pairwise.nil, rfl⟩

/-- C1: over any call sequence on a single manager — other registry
operations and `clearAllWindows` included — the ids returned by
`createWindow` are pairwise distinct (hence never reused: the counters
are not reset), and each newly created record's `zIndex` is strictly
greater than the `zIndex` of every record previously created or
previously brought to front. -/
theorem C1_create_ids_distinct_z_increasing (ops : List Op) :
    (createdIds (runEvents ops).2).Pairwise (· ≠ ·) ∧
    (runEvents ops).2.Pairwise
      (fun a b => evIsCreated b = true → evZ a < evZ b) := by
  have h := evInv_runEvents ops
  constructor
  · rw [h.ids_eq]
    exact h.k_chain.map mkId
      (fun a b hab he => absurd (mkId_injective he) (Nat.ne_of_lt hab))
  · exact h.z_chain.imp (fun {a b} hab => fun _ => hab)

/-- C1 witness: creates interleaved with `clearAllWindows` and
`bringToFront`. -/
theorem C1_create_ids_distinct_z_increasing_witness :
    (createdIds (runEvents [.create .editor "a" "" none, .clearAll,
        .create .markdown "b" "" none, .front "window-2"]).2).Pairwise
      (· ≠ ·) ∧
    (runEvents [.create .editor "a" "" none, .clearAll,
        .create .markdown "b" "" none, .front "window-2"]).2.Pairwise
      (fun a b => evIsCreated b = true → evZ a < evZ b) :=
  C1_create_ids_distinct_z_increasing [.create .editor "a" "" none,
    .clearAll, .create .markdown "b" "" none, .front "window-2"]

/-! ## C4: the linked-window invariant -/

/-- C4 counterexample: nothing in `createWindow` validates the
`linkedWindowId` argument, so one call produces a live `output` record
whose link names no live window at all. -/
theorem C4_counterexample :
    ∃ p ∈ (runOps [.create .output "t" "" (some "bogus")]).windows,
      p.2.type = .output ∧ p.2.linkedWindowId = some "bogus" ∧
      ∀ q ∈ (runOps [.create .output "t" "" (some "bogus")]).windows,
        q.1 ≠ "bogus" := by
  refine ⟨("window-1",
    { id := "window-1", type := .output, title := "t", x := 100, y := 100
      width := 800, height := 600, zIndex := 1001, isMinimized := false
      content := "", linkedWindowId := some "bogus" }), ?_, rfl, rfl, ?_⟩
  · rw [show (runOps [.create .output "t" "" (some "bogus")]).windows =
      [("window-1",
        { id := "window-1", type := .output, title := "t", x := 100, y := 100
          width := 800, height := 600, zIndex := 1001, isMinimized := false
          content := "", linkedWindowId := some "bogus" })] from rfl]
    exact List.mem_singleton.mpr rfl
  · intro q hq
    rw [show (runOps [.create .output "t" "" (some "bogus")]).windows =
      [("window-1",
        { id := "window-1", type := .output, title := "t", x := 100, y := 100
          width := 800, height := 600, zIndex := 1001, isMinimized := false
          content := "", linkedWindowId := some "bogus" })] from rfl] at hq
    rcases List.mem_singleton.mp hq with rfl
    decide

theorem reachG_reach {st : FWMState} (h : ReachG st) : Reach st := by
  induction h with
  | init => exact Reach.init
  | step op _ _ ih => exact Reach.step op ih

/-- Replacing one record by another with the same `type` and
`linkedWindowId` preserves the link invariant and the editors-unlinked
side condition, at the raw window-list level. -/
theorem linkInv_replaceKey {st : FWMState} (hinv : StInv st)
    (h1 : linkedOk st)
    (h2 : ∀ p ∈ st.windows, p.2.type = .editor → p.2.linkedWindowId = none)
    (id : String) {w : FloatingWindow} (hw : alookup st.windows id = some w)
    (v : FloatingWindow) (hvt : v.type = w.type)
    (hvl : v.linkedWindowId = w.linkedWindowId) :
    (∀ p ∈ replaceKey st.windows id v, p.2.type = .output →
      ∀ t, p.2.linkedWindowId = some t →
        ∃ q ∈ replaceKey st.windows id v, q.1 = t ∧ q.2.type = .editor) ∧
    (∀ p ∈ replaceKey st.windows id v, p.2.type = .editor →
      p.2.linkedWindowId = none) := by
  have hwmem : (id, w) ∈ st.windows := alookup_mem hw
  have hmap : ∀ (q : String × FloatingWindow), q ∈ st.windows →
      q.2.type = .editor → ∃ q' ∈ replaceKey st.windows id v,
        q'.1 = q.1 ∧ q'.2.type = .editor := by
    intro q hq hqt
    by_cases hqid : q.1 = id
    · have hqe : q = (id, w) :=
        nodup_keys_eq hinv.keys_nodup hq hwmem (by rw [hqid])
      refine ⟨(id, v), self_mem_replaceKey v hw, by rw [hqid], ?_⟩
      show v.type = .editor
      rw [hvt, show w = q.2 from by rw [hqe]]
      exact hqt
    · exact ⟨q, mem_replaceKey_of_ne v hq hqid, rfl, hqt⟩
  constructor
  · intro p hp htype t hlink
    have hsrc : ∃ p₀ ∈ st.windows, p₀.2.type = .output ∧
        p₀.2.linkedWindowId = some t := by
      rcases mem_replaceKey p hp with he | ⟨hmem, _⟩
      · refine ⟨(id, w), hwmem, ?_, ?_⟩
        · show w.type = .output
          rw [← hvt, ← show p.2 = v from by rw [he]]
          exact htype
        · show w.linkedWindowId = some t
          rw [← hvl, ← show p.2 = v from by rw [he]]
          exact hlink
      · exact ⟨p, hmem, htype, hlink⟩
    rcases hsrc with ⟨p₀, hp₀, hp₀t, hp₀l⟩
    rcases h1 p₀ hp₀ hp₀t t hp₀l with ⟨q, hqmem, hqk, hqt⟩
    rcases hmap q hqmem hqt with ⟨q', hq'mem, hq'k, hq't⟩
    exact ⟨q', hq'mem, by rw [hq'k, hqk], hq't⟩
  · intro p hp htype
    rcases mem_replaceKey p hp with he | ⟨hmem, _⟩
    · show p.2.linkedWindowId = none
      rw [show p.2 = v from by rw [he], hvl]
      apply h2 (id, w) hwmem
      show w.type = .editor
      rw [← hvt, ← show p.2 = v from by rw [he]]
      exact htype
    · exact h2 p hmem htype

/-- Closing a window preserves the link invariant (with the
editors-unlinked side condition) on well-formed states. -/
theorem linkInv_close {st : FWMState} (hinv : StInv st)
    (h1 : linkedOk st)
    (h2 : ∀ p ∈ st.windows, p.2.type = .editor → p.2.linkedWindowId = none)
    (id : String) :
    linkedOk (closeWindow st id) ∧
    (∀ p ∈ (closeWindow st id).windows, p.2.type = .editor →
      p.2.linkedWindowId = none) := by
  unfold closeWindow
  cases hm : mapGet st.windows id with
  | none => exact ⟨h1, h2⟩
  | some w =>
    dsimp only
    have hw : alookup st.windows id = some w := hm
    have hwmem : (id, w) ∈ st.windows := alookup_mem hw
    by_cases hwt : w.type = .editor
    · rw [if_pos hwt, foldl_mapDelete_filter]
      unfold mapDelete linkedOk
      constructor
      · intro p' hp' htype t hlink
        have hp'1 := List.mem_filter.mp hp'
        have hp'2 := List.mem_filter.mp hp'1.1
        rcases h1 p' hp'2.1 htype t hlink with ⟨q, hqmem, hqk, hqt⟩
        have hqid : q.1 ≠ id := by
          intro hqid
          have ht_id : t = id := by rw [← hqk, hqid]
          rw [ht_id] at hlink
          have hany : ((st.windows.filter
              (fun p => p.2.linkedWindowId == some id)).any
                (fun p => p'.1 == p.1)) = true :=
            List.any_eq_true.mpr ⟨p',
              List.mem_filter.mpr ⟨hp'2.1, by simp [hlink]⟩, by simp⟩
          rw [hany] at hp'2
          exact absurd hp'2.2 (by simp)
        refine ⟨q, ?_, hqk, hqt⟩
        apply List.mem_filter.mpr
        refine ⟨List.mem_filter.mpr ⟨hqmem, ?_⟩, by simp [hqid]⟩
        rw [Bool.not_eq_true']
        have hnot : ¬ ((st.windows.filter
            (fun p => p.2.linkedWindowId == some id)).any
              (fun p => q.1 == p.1) = true) := by
          rw [List.any_eq_true]
          rintro ⟨p₂, hp₂m, hpe⟩
          have hf := List.mem_filter.mp hp₂m
          have hp₂q : p₂ = q :=
            nodup_keys_eq hinv.keys_nodup hf.1 hqmem (beq_iff_eq.mp hpe).symm
          rw [hp₂q] at hf
          have := h2 q hqmem hqt
          rw [this] at hf
          simp at hf
        exact Bool.eq_false_iff.mpr hnot
      · intro p' hp' ht
        exact h2 p' (List.mem_filter.mp (List.mem_filter.mp hp').1).1 ht
    · rw [if_neg hwt]
      unfold mapDelete linkedOk
      constructor
      · intro p' hp' htype t hlink
        have hp'1 := List.mem_filter.mp hp'
        rcases h1 p' hp'1.1 htype t hlink with ⟨q, hqmem, hqk, hqt⟩
        refine ⟨q, List.mem_filter.mpr ⟨hqmem, ?_⟩, hqk, hqt⟩
        by_cases hqid : q.1 = id
        · have hqe : q = (id, w) :=
            nodup_keys_eq hinv.keys_nodup hqmem hwmem (by rw [hqid])
          rw [show w = q.2 from by rw [hqe]] at hwt
          exact absurd hqt hwt
        · simp [hqid]
      · intro p' hp' ht
        exact h2 p' (List.mem_filter.mp hp').1 ht

/-- Under the creation guard, every guarded-reachable state satisfies
the link invariant together with the editors-unlinked side condition. -/
theorem reachG_linkInv {st : FWMState} (h : ReachG st) :
    linkedOk st ∧
    (∀ p ∈ st.windows, p.2.type = .editor → p.2.linkedWindowId = none) := by
  induction h with
  | init =>
    exact ⟨fun p hp => absurd hp (List.not_mem_nil p),
      fun p hp => absurd hp (List.not_mem_nil p)⟩
  | step op hst hguard ih =>
    have hinv := reach_stInv (reachG_reach hst)
    obtain ⟨ih1, ih2⟩ := ih
    rename_i st0
    cases op with
    | create t ti c l =>
      simp only [applyOp, createWindow]
      rw [mapSet_fresh _ (alookup_fresh_of_key_lt hinv)]
      constructor
      · intro p hp htype t' hlink
        rcases List.mem_append.mp hp with hmem | hmem
        · rcases ih1 p hmem htype t' hlink with ⟨q, hq, hqk, hqt⟩
          exact ⟨q, List.mem_append_left _ hq, hqk, hqt⟩
        · simp only [List.mem_singleton] at hmem
          have hl : p.2.linkedWindowId = l := by rw [hmem]
          rw [hl] at hlink
          subst hlink
          obtain ⟨hto, q, hqm, hqk, hqt⟩ := hguard
          exact ⟨q, List.mem_append_left _ hqm, hqk, hqt⟩
      · intro p hp htype
        rcases List.mem_append.mp hp with hmem | hmem
        · exact ih2 p hmem htype
        · simp only [List.mem_singleton] at hmem
          have ht : p.2.type = t := by rw [hmem]
          have hl : p.2.linkedWindowId = l := by rw [hmem]
          rw [hl]
          cases l with
          | none => rfl
          | some lid =>
            obtain ⟨hto, _⟩ := hguard
            rw [htype] at ht
            rw [hto] at ht
            cases ht
    | close id => exact linkInv_close hinv ih1 ih2 id
    | minimize id =>
      simp only [applyOp, minimizeWindow, updateWith]
      cases hm : mapGet st0.windows id with
      | none => exact ⟨ih1, ih2⟩
      | some w =>
        dsimp only
        have hw : alookup st0.windows id = some w := hm
        rw [mapSet_present _ (by rw [hw]; rfl)]
        exact ⟨(linkInv_replaceKey hinv ih1 ih2 id hw
            { w with isMinimized := !w.isMinimized } rfl rfl).1,
          (linkInv_replaceKey hinv ih1 ih2 id hw
            { w with isMinimized := !w.isMinimized } rfl rfl).2⟩
    | front id =>
      simp only [applyOp, bringToFront]
      cases hm : mapGet st0.windows id with
      | none => exact ⟨ih1, ih2⟩
      | some w =>
        dsimp only
        have hw : alookup st0.windows id = some w := hm
        rw [mapSet_present _ (by rw [hw]; rfl)]
        exact ⟨(linkInv_replaceKey hinv ih1 ih2 id hw
            { w with zIndex := st0.maxZIndex + 1 } rfl rfl).1,
          (linkInv_replaceKey hinv ih1 ih2 id hw
            { w with zIndex := st0.maxZIndex + 1 } rfl rfl).2⟩
    | setPos id x y =>
      simp only [applyOp, updatePosition, updateWith]
      cases hm : mapGet st0.windows id with
      | none => exact ⟨ih1, ih2⟩
      | some w =>
        dsimp only
        have hw : alookup st0.windows id = some w := hm
        rw [mapSet_present _ (by rw [hw]; rfl)]
        exact ⟨(linkInv_replaceKey hinv ih1 ih2 id hw
            { w with x := x, y := y } rfl rfl).1,
          (linkInv_replaceKey hinv ih1 ih2 id hw
            { w with x := x, y := y } rfl rfl).2⟩
    | setSize id wd ht =>
      simp only [applyOp, updateSize, updateWith]
      cases hm : mapGet st0.windows id with
      | none => exact ⟨ih1, ih2⟩
      | some w =>
        dsimp only
        have hw : alookup st0.windows id = some w := hm
        rw [mapSet_present _ (by rw [hw]; rfl)]
        exact ⟨(linkInv_replaceKey hinv ih1 ih2 id hw
            { w with width := wd, height := ht } rfl rfl).1,
          (linkInv_replaceKey hinv ih1 ih2 id hw
            { w with width := wd, height := ht } rfl rfl).2⟩
    | setContent id c =>
      simp only [applyOp, updateContent, updateWith]
      cases hm : mapGet st0.windows id with
      | none => exact ⟨ih1, ih2⟩
      | some w =>
        dsimp only
        have hw : alookup st0.windows id = some w := hm
        rw [mapSet_present _ (by rw [hw]; rfl)]
        exact ⟨(linkInv_replaceKey hinv ih1 ih2 id hw
            { w with content := c } rfl rfl).1,
          (linkInv_replaceKey hinv ih1 ih2 id hw
            { w with content := c } rfl rfl).2⟩
    | setTitle id ti =>
      simp only [applyOp, updateTitle, updateWith]
      cases hm : mapGet st0.windows id with
      | none => exact ⟨ih1, ih2⟩
      | some w =>
        dsimp only
        have hw : alookup st0.windows id = some w := hm
        rw [mapSet_present _ (by rw [hw]; rfl)]
        exact ⟨(linkInv_replaceKey hinv ih1 ih2 id hw
            { w with title := ti } rfl rfl).1,
          (linkInv_replaceKey hinv ih1 ih2 id hw
            { w with title := ti } rfl rfl).2⟩
    | clearAll =>
      exact ⟨fun p hp => absurd hp (List.not_mem_nil p),
        fun p hp => absurd hp (List.not_mem_nil p)⟩

/-- C4 amended: the zIndex values of the live records are pairwise
distinct in every reachable state, with no guard on the call sequence;
the linked-editor invariant, however, is not enforced by the registry
itself (see the counterexample) — it holds in every state reachable
under the callers' discipline `linkGuardOk`: a `linkedWindowId` is only
ever passed when creating an `output` window and then names a live
`editor` window. -/
theorem C4_link_invariant (st st' : FWMState) (hr : Reach st)
    (hg : ReachG st') :
    (st.windows.map (fun p => p.2.zIndex)).Nodup ∧ linkedOk st' :=
  ⟨(reach_stInv hr).z_nodup, (reachG_linkInv hg).1⟩

/-- C4 witness: z-distinctness at an unguarded state holding an output
window with a dangling link, and the link invariant at a guarded state
with an editor plus a legitimately linked output window. -/
theorem C4_link_invariant_witness :
    ((runOps [.create .output "t" "" (some "bogus")]).windows.map
      (fun p => p.2.zIndex)).Nodup ∧
    linkedOk (applyOp (applyOp initialState (.create .editor "t" "c" none))
      (.create .output "o" "" (some "window-1"))) :=
  C4_link_invariant _ _
    (reach_runOps [.create .output "t" "" (some "bogus")])
    (ReachG.step _ (ReachG.step _ ReachG.init trivial)
      ⟨rfl, ("window-1",
        { id := "window-1", type := .editor, title := "t", x := 100, y := 100
          width := 700, height := 600, zIndex := 1001, isMinimized := false
          content := "c", linkedWindowId := none }),
        by
          rw [show (applyOp initialState
              (.create .editor "t" "c" none)).windows =
            [("window-1",
              { id := "window-1", type := .editor, title := "t", x := 100
                y := 100, width := 700, height := 600, zIndex := 1001
                isMinimized := false, content := "c",
                linkedWindowId := none })] from rfl]
          exact List.mem_singleton.mpr rfl,
        rfl, rfl⟩)

end ThreeJupyter
